import Mathlib

/-!
Verification development for the Qlaude Obsidian plugin's streaming
orchestration core.

The embedding covers:
* `src/src/claude-runner.ts` — the `parseAndDispatch` record parser/dispatcher
  and the newline framing of the child process's stdout stream
  (`proc.stdout.on("data", ...)` / `proc.on("close", ...)`);
* `src/src/settings.ts` — `buildToolsList`;
* the modal orchestrator (`ClaudianModal`) — `handleRun`, `runChat`, `runQuick`,
  `handleText`, `handleToolUse`, `handleToolResult`, `handleCancel` and the
  chat-mode callbacks installed by `runChat`.

Modelling conventions:
* JavaScript strings are modelled as `List Char` (named `Str` below); the
  stdout byte stream is modelled as `List Nat` byte lists, decoded per chunk
  by a model of `Buffer.toString("utf8")` (the WHATWG decoder with U+FFFD
  replacement, which Node applies to each chunk in isolation).
* JavaScript numbers are modelled as exact decimals (`JsNumber`); the claims
  under verification never depend on binary floating-point rounding.
* `JSON.parse` is modelled by a fueled recursive-descent parser over `Str`;
  a parse exception is `Option.none`.
* JavaScript runtime values reachable from a parsed record are `JValue`
  (a JSON value) or `undefined`; the type `JsVal` adjoins `undefined`.
  A thrown `TypeError` (property access on `null`/`undefined`, `for..of`
  over a non-iterable, calling `.map` on a non-array) is modelled explicitly:
  dispatching returns the events emitted before the throw together with
  `Option JsError`.
-/

/-- JavaScript strings, modelled as lists of characters. -/
abbrev Str := List Char

/-- Turn a Lean string literal into a modelled JavaScript string. -/
def chars (s : String) : Str := s.data

/-- A JavaScript number, modelled exactly as `mantissa × 10^exp10` (the claims
under verification carry numbers through unchanged and never depend on binary
floating-point rounding). -/
structure JsNumber where
  mantissa : Int
  exp10 : Int := 0
deriving DecidableEq, Repr

/-- The number zero. -/
def JsNumber.zero : JsNumber := ⟨0, 0⟩

/-- JSON values as produced by `JSON.parse`. Object member lists carry unique
keys in insertion order (duplicate keys are resolved at parse time, last value
winning in place, as JavaScript does). -/
inductive JValue where
  | null : JValue
  | bool (b : Bool) : JValue
  | num (q : JsNumber) : JValue
  | str (s : Str) : JValue
  | arr (elems : List JValue) : JValue
  | obj (fields : List (Str × JValue)) : JValue

/-- A JavaScript runtime value reachable from a parsed record: a JSON value or
`undefined` (the result of reading an absent property). -/
inductive JsVal where
  | js (v : JValue) : JsVal
  | undefined : JsVal

/-- The only exception kind the dispatcher can raise: a `TypeError`. -/
inductive JsError where
  | typeError : JsError
deriving DecidableEq

mutual

/-- Decidable equality of JSON values (spelt out because the nested inductive
defeats the deriving handler). -/
def decEqJ : (a b : JValue) → Decidable (a = b)
  | .null, .null => isTrue rfl
  | .bool a, .bool b =>
    match decEq a b with
    | isTrue h => isTrue (by rw [h])
    | isFalse h => isFalse (by intro hc; injection hc; contradiction)
  | .num a, .num b =>
    match decEq a b with
    | isTrue h => isTrue (by rw [h])
    | isFalse h => isFalse (by intro hc; injection hc; contradiction)
  | .str a, .str b =>
    match decEq a b with
    | isTrue h => isTrue (by rw [h])
    | isFalse h => isFalse (by intro hc; injection hc; contradiction)
  | .arr a, .arr b =>
    match decEqListJ a b with
    | isTrue h => isTrue (by rw [h])
    | isFalse h => isFalse (by intro hc; injection hc; contradiction)
  | .obj a, .obj b =>
    match decEqFieldsJ a b with
    | isTrue h => isTrue (by rw [h])
    | isFalse h => isFalse (by intro hc; injection hc; contradiction)
  | .null, .bool _ => isFalse (by intro h; exact JValue.noConfusion h)
  | .null, .num _ => isFalse (by intro h; exact JValue.noConfusion h)
  | .null, .str _ => isFalse (by intro h; exact JValue.noConfusion h)
  | .null, .arr _ => isFalse (by intro h; exact JValue.noConfusion h)
  | .null, .obj _ => isFalse (by intro h; exact JValue.noConfusion h)
  | .bool _, .null => isFalse (by intro h; exact JValue.noConfusion h)
  | .bool _, .num _ => isFalse (by intro h; exact JValue.noConfusion h)
  | .bool _, .str _ => isFalse (by intro h; exact JValue.noConfusion h)
  | .bool _, .arr _ => isFalse (by intro h; exact JValue.noConfusion h)
  | .bool _, .obj _ => isFalse (by intro h; exact JValue.noConfusion h)
  | .num _, .null => isFalse (by intro h; exact JValue.noConfusion h)
  | .num _, .bool _ => isFalse (by intro h; exact JValue.noConfusion h)
  | .num _, .str _ => isFalse (by intro h; exact JValue.noConfusion h)
  | .num _, .arr _ => isFalse (by intro h; exact JValue.noConfusion h)
  | .num _, .obj _ => isFalse (by intro h; exact JValue.noConfusion h)
  | .str _, .null => isFalse (by intro h; exact JValue.noConfusion h)
  | .str _, .bool _ => isFalse (by intro h; exact JValue.noConfusion h)
  | .str _, .num _ => isFalse (by intro h; exact JValue.noConfusion h)
  | .str _, .arr _ => isFalse (by intro h; exact JValue.noConfusion h)
  | .str _, .obj _ => isFalse (by intro h; exact JValue.noConfusion h)
  | .arr _, .null => isFalse (by intro h; exact JValue.noConfusion h)
  | .arr _, .bool _ => isFalse (by intro h; exact JValue.noConfusion h)
  | .arr _, .num _ => isFalse (by intro h; exact JValue.noConfusion h)
  | .arr _, .str _ => isFalse (by intro h; exact JValue.noConfusion h)
  | .arr _, .obj _ => isFalse (by intro h; exact JValue.noConfusion h)
  | .obj _, .null => isFalse (by intro h; exact JValue.noConfusion h)
  | .obj _, .bool _ => isFalse (by intro h; exact JValue.noConfusion h)
  | .obj _, .num _ => isFalse (by intro h; exact JValue.noConfusion h)
  | .obj _, .str _ => isFalse (by intro h; exact JValue.noConfusion h)
  | .obj _, .arr _ => isFalse (by intro h; exact JValue.noConfusion h)

/-- Decidable equality of JSON value lists. -/
def decEqListJ : (a b : List JValue) → Decidable (a = b)
  | [], [] => isTrue rfl
  | [], _ :: _ => isFalse (by intro h; exact List.noConfusion h)
  | _ :: _, [] => isFalse (by intro h; exact List.noConfusion h)
  | x :: xs, y :: ys =>
    match decEqJ x y, decEqListJ xs ys with
    | isTrue h1, isTrue h2 => isTrue (by rw [h1, h2])
    | isFalse h1, _ => isFalse (by intro hc; injection hc; contradiction)
    | _, isFalse h2 => isFalse (by intro hc; injection hc; contradiction)

/-- Decidable equality of object member lists. -/
def decEqFieldsJ : (a b : List (Str × JValue)) → Decidable (a = b)
  | [], [] => isTrue rfl
  | [], _ :: _ => isFalse (by intro h; exact List.noConfusion h)
  | _ :: _, [] => isFalse (by intro h; exact List.noConfusion h)
  | (k1, v1) :: xs, (k2, v2) :: ys =>
    match decEq k1 k2, decEqJ v1 v2, decEqFieldsJ xs ys with
    | isTrue h1, isTrue h2, isTrue h3 =>
      isTrue (by rw [h1, h2, h3])
    | isFalse h1, _, _ =>
      isFalse (by intro hc; injection hc with hp _; injection hp; contradiction)
    | _, isFalse h2, _ =>
      isFalse (by intro hc; injection hc with hp _; injection hp; contradiction)
    | _, _, isFalse h3 => isFalse (by intro hc; injection hc; contradiction)

end

instance : DecidableEq JValue := decEqJ

instance : DecidableEq JsVal
  | .js a, .js b =>
    match decEqJ a b with
    | isTrue h => isTrue (by rw [h])
    | isFalse h => isFalse (by intro hc; injection hc; contradiction)
  | .js _, .undefined => isFalse (by intro h; exact JsVal.noConfusion h)
  | .undefined, .js _ => isFalse (by intro h; exact JsVal.noConfusion h)
  | .undefined, .undefined => isTrue rfl

/-- First-match field lookup in an object's member list (keys are unique). -/
def lookupF : List (Str × JValue) → Str → Option JValue
  | [], _ => none
  | (k, v) :: fs, key => if k = key then some v else lookupF fs key

/-- Property access `v.key` on a receiver already known not to be `null`
(JavaScript returns `undefined` for a missing member and for any property of a
primitive or array receiver; none of the property names the code reads are
built-ins of those). -/
def propD (v : JValue) (key : Str) : JsVal :=
  match v with
  | .obj fs =>
    match lookupF fs key with
    | some x => .js x
    | none => .undefined
  | _ => .undefined

/-- JavaScript nullish test (`x ?? d` replaces exactly these). -/
def nullish : JsVal → Bool
  | .undefined => true
  | .js .null => true
  | _ => false

/-- JavaScript truthiness. -/
def truthy : JsVal → Bool
  | .undefined => false
  | .js .null => false
  | .js (.bool b) => b
  | .js (.num q) => decide (q.mantissa ≠ 0)
  | .js (.str s) => decide (s ≠ [])
  | .js (.arr _) => true
  | .js (.obj _) => true

/-! ### The `JSON.parse` model -/

/-- JSON insignificant whitespace. -/
def jsonWs (c : Char) : Bool := c = ' ' ∨ c = '\t' ∨ c = '\n' ∨ c = '\r'

/-- Drop leading JSON whitespace. -/
def skipWs : Str → Str
  | [] => []
  | c :: cs => if jsonWs c then skipWs cs else c :: cs

/-- Value of a hexadecimal digit. -/
def hexVal (c : Char) : Option Nat :=
  if '0' ≤ c ∧ c ≤ '9' then some (c.toNat - 48)
  else if 'a' ≤ c ∧ c ≤ 'f' then some (c.toNat - 87)
  else if 'A' ≤ c ∧ c ≤ 'F' then some (c.toNat - 55)
  else none

/-- One-character JSON string escapes. -/
def escChar : Char → Option Char
  | '"' => some '"'
  | '\\' => some '\\'
  | '/' => some '/'
  | 'b' => some (Char.ofNat 8)
  | 'f' => some (Char.ofNat 12)
  | 'n' => some '\n'
  | 'r' => some '\r'
  | 't' => some '\t'
  | _ => none

/-- Body of a JSON string literal, after the opening quote: the decoded
characters and the rest of the input after the closing quote. Unterminated
strings, bad escapes and raw control characters are rejected, as in
`JSON.parse`. -/
def parseStringBody : Str → Option (Str × Str)
  | [] => none
  | c :: cs =>
    if c = '"' then some ([], cs)
    else if c = '\\' then
      match cs with
      | 'u' :: h1 :: h2 :: h3 :: h4 :: rest => do
        let a ← hexVal h1
        let b ← hexVal h2
        let c3 ← hexVal h3
        let d ← hexVal h4
        let (s, r) ← parseStringBody rest
        some (Char.ofNat (((a * 16 + b) * 16 + c3) * 16 + d) :: s, r)
      | e :: rest => do
        let ec ← escChar e
        let (s, r) ← parseStringBody rest
        some (ec :: s, r)
      | [] => none
    else if c.toNat < 32 then none
    else do
      let (s, r) ← parseStringBody cs
      some (c :: s, r)

/-- Longest leading run of decimal digits. -/
def takeDigits : Str → Str × Str
  | [] => ([], [])
  | c :: cs =>
    if c.isDigit then
      let (ds, r) := takeDigits cs
      (c :: ds, r)
    else ([], c :: cs)

/-- Numeric value of a digit run. -/
def digitsToNat (ds : Str) : Nat :=
  ds.foldl (fun a c => a * 10 + (c.toNat - 48)) 0

/-- Integer part of a JSON number (no leading zeros, per the grammar). -/
def parseIntPart : Str → Option (Nat × Str)
  | '0' :: r =>
    if (r.head?.map Char.isDigit).getD false then none else some (0, r)
  | cs =>
    let (ds, r) := takeDigits cs
    if ds = [] then none else some (digitsToNat ds, r)

/-- Optional fraction part: its value, its digit count and the rest. -/
def parseFrac : Str → Option (Nat × Nat × Str)
  | '.' :: r =>
    let (ds, r2) := takeDigits r
    if ds = [] then none else some (digitsToNat ds, ds.length, r2)
  | cs => some (0, 0, cs)

/-- Optional exponent part. -/
def parseExp : Str → Option (Int × Str)
  | [] => some (0, [])
  | c :: r =>
    if c = 'e' ∨ c = 'E' then
      match r with
      | '+' :: r2 =>
        let (ds, r3) := takeDigits r2
        if ds = [] then none else some ((digitsToNat ds : Int), r3)
      | '-' :: r2 =>
        let (ds, r3) := takeDigits r2
        if ds = [] then none else some (-(digitsToNat ds : Int), r3)
      | _ =>
        let (ds, r3) := takeDigits r
        if ds = [] then none else some ((digitsToNat ds : Int), r3)
    else some (0, c :: r)

/-- A JSON number, as an exact decimal. -/
def parseNumber (cs : Str) : Option (JsNumber × Str) := do
  let (neg, cs1) := match cs with | '-' :: r => (true, r) | _ => (false, cs)
  let (ip, cs2) ← parseIntPart cs1
  let (fr, flen, cs3) ← parseFrac cs2
  let (ex, cs4) ← parseExp cs3
  let mant : Int := (ip * 10 ^ flen + fr : Nat)
  let mant : Int := if neg then -mant else mant
  some (⟨mant, ex - flen⟩, cs4)

/-- Consume an expected literal character sequence. -/
def expectChars : Str → Str → Option Str
  | [], cs => some cs
  | e :: es, c :: cs => if c = e then expectChars es cs else none
  | _ :: _, [] => none

/-- Insert an object member as JavaScript does for duplicate keys: a later
value overwrites in place, insertion order of the first occurrence wins. -/
def insertField : List (Str × JValue) → Str → JValue → List (Str × JValue)
  | [], k, v => [(k, v)]
  | (k', v') :: fs, k, v =>
    if k' = k then (k, v) :: fs else (k', v') :: insertField fs k v

mutual

/-- Fueled recursive-descent JSON value parser. -/
def parseVal : Nat → Str → Option (JValue × Str)
  | 0, _ => none
  | Nat.succ fuel, cs =>
    match skipWs cs with
    | [] => none
    | c :: r =>
      if c = '\x7b' then parseObjRest fuel r
      else if c = '[' then parseArrRest fuel r
      else if c = '"' then (parseStringBody r).map (fun p => (.str p.1, p.2))
      else if c = 't' then (expectChars (chars "rue") r).map (fun r2 => (.bool true, r2))
      else if c = 'f' then (expectChars (chars "alse") r).map (fun r2 => (.bool false, r2))
      else if c = 'n' then (expectChars (chars "ull") r).map (fun r2 => (.null, r2))
      else (parseNumber (c :: r)).map (fun p => (.num p.1, p.2))

/-- Object body after the opening brace. -/
def parseObjRest : Nat → Str → Option (JValue × Str)
  | 0, _ => none
  | Nat.succ fuel, cs =>
    match skipWs cs with
    | '\x7d' :: r => some (.obj [], r)
    | cs2 => parseMember fuel cs2 []

/-- One `"key": value` member and the members after it. -/
def parseMember : Nat → Str → List (Str × JValue) → Option (JValue × Str)
  | 0, _, _ => none
  | Nat.succ fuel, cs, acc =>
    match skipWs cs with
    | '"' :: r => do
      let (key, r2) ← parseStringBody r
      match skipWs r2 with
      | ':' :: r3 => do
        let (v, r4) ← parseVal fuel r3
        let acc2 := insertField acc key v
        match skipWs r4 with
        | ',' :: r5 => parseMember fuel r5 acc2
        | '\x7d' :: r5 => some (.obj acc2, r5)
        | _ => none
      | _ => none
    | _ => none

/-- Array body after the opening bracket. -/
def parseArrRest : Nat → Str → Option (JValue × Str)
  | 0, _ => none
  | Nat.succ fuel, cs =>
    match skipWs cs with
    | ']' :: r => some (.arr [], r)
    | cs2 => parseElems fuel cs2 []

/-- One array element and the elements after it. -/
def parseElems : Nat → Str → List JValue → Option (JValue × Str)
  | 0, _, _ => none
  | Nat.succ fuel, cs, acc => do
    let (v, r) ← parseVal fuel cs
    match skipWs r with
    | ',' :: r2 => parseElems fuel r2 (acc ++ [v])
    | ']' :: r2 => some (.arr (acc ++ [v]), r2)
    | _ => none

end

/-- The `JSON.parse(line)` model: `none` is a thrown-and-caught `SyntaxError`.
The fuel is an over-approximation of the number of recursive-descent steps a
string of this length can trigger. -/
def parseJson (line : Str) : Option JValue :=
  match parseVal (line.length * 4 + 16) line with
  | some (v, rest) => if skipWs rest = [] then some v else none
  | none => none

/-! ### String renderers: JavaScript `String(x)` and `JSON.stringify` -/

/-- Decimal digits of a natural number. -/
def natDigits (n : Nat) : Str := Nat.toDigits 10 n

/-- Decimal rendering of an integer. -/
def intStr (i : Int) : Str :=
  if i < 0 then '-' :: natDigits i.natAbs else natDigits i.natAbs

/-- Left-pad a digit run with zeros to the given width. -/
def padZeros (k : Nat) (ds : Str) : Str :=
  List.replicate (k - ds.length) '0' ++ ds

/-- Drop trailing zeros of a fraction's digit run. -/
def trimZeros (ds : Str) : Str :=
  (ds.reverse.dropWhile (fun c => c = '0')).reverse

/-- JavaScript's decimal rendering of a number (exact decimals render
identically to JavaScript, which prints the shortest round-tripping decimal). -/
def numToStr (q : JsNumber) : Str :=
  let sign : Str := if q.mantissa < 0 then ['-'] else []
  let a := q.mantissa.natAbs
  if 0 ≤ q.exp10 then sign ++ natDigits (a * 10 ^ q.exp10.toNat)
  else
    let k := (-q.exp10).toNat
    let ip := a / 10 ^ k
    let fds := trimZeros (padZeros k (natDigits (a % 10 ^ k)))
    if fds = [] then sign ++ natDigits ip
    else sign ++ natDigits ip ++ '.' :: fds

mutual

/-- JavaScript `String(x)` on a JSON value (`Array.prototype.join` uses it for
each non-nullish element; arrays stringify by joining with commas, nested
nullish elements rendering empty). -/
def jsString : JValue → Str
  | .null => chars "null"
  | .bool b => if b then chars "true" else chars "false"
  | .num q => numToStr q
  | .str s => s
  | .arr xs => List.intercalate [','] (jsStringElems xs)
  | .obj _ => chars "[object Object]"

/-- Elementwise `String(x)` for `Array.prototype.join`, where `null` (and
`undefined`, which cannot occur inside a parsed value) renders empty. -/
def jsStringElems : List JValue → List Str
  | [] => []
  | .null :: xs => [] :: jsStringElems xs
  | x :: xs => jsString x :: jsStringElems xs

end

/-- A hexadecimal digit character. -/
def hexDigit (n : Nat) : Char :=
  if n < 10 then Char.ofNat (48 + n) else Char.ofNat (87 + n)

/-- `JSON.stringify` escaping of one string character. -/
def escapeJsonChar (c : Char) : Str :=
  if c = '"' then ['\\', '"']
  else if c = '\\' then ['\\', '\\']
  else if c = '\n' then ['\\', 'n']
  else if c = '\r' then ['\\', 'r']
  else if c = '\t' then ['\\', 't']
  else if c.toNat = 8 then ['\\', 'b']
  else if c.toNat = 12 then ['\\', 'f']
  else if c.toNat < 32 then ['\\', 'u', '0', '0', hexDigit (c.toNat / 16), hexDigit (c.toNat % 16)]
  else [c]

/-- `JSON.stringify` rendering of a string. -/
def quoteJson (s : Str) : Str :=
  '"' :: (s.map escapeJsonChar).flatten ++ ['"']

mutual

/-- `JSON.stringify` on a parsed JSON value (the canonical text encoding used
by the tool-result normalization's fallback case). -/
def stringifyJson : JValue → Str
  | .null => chars "null"
  | .bool b => if b then chars "true" else chars "false"
  | .num q => numToStr q
  | .str s => quoteJson s
  | .arr xs => '[' :: List.intercalate [','] (stringifyList xs) ++ [']']
  | .obj fs => '\x7b' :: List.intercalate [','] (stringifyFields fs) ++ ['\x7d']

/-- `JSON.stringify` on array elements. -/
def stringifyList : List JValue → List Str
  | [] => []
  | v :: vs => stringifyJson v :: stringifyList vs

/-- `JSON.stringify` on object members. -/
def stringifyFields : List (Str × JValue) → List Str
  | [] => []
  | (k, v) :: fs => (quoteJson k ++ ':' :: stringifyJson v) :: stringifyFields fs

end

/-! ### Typed events and the `parseAndDispatch` model
(`src/src/claude-runner.ts`, lines 97–187). Each constructor corresponds to one
callback invocation; fields carry the exact runtime values the code passes
(the TypeScript casts are unchecked, so a field can hold any runtime value). -/

/-- One dispatched callback invocation. -/
inductive Event where
  | systemInit (sessionId : JsVal) (tools : List JsVal) : Event
  | text (t : JsVal) : Event
  | toolUse (id name input : JsVal) : Event
  | toolResult (toolUseId content : JsVal) : Event
  | done (turns costUsd : JsVal) : Event
  | error (message : JsVal) : Event

/-- `(event.tools as Array<{name}> | undefined)?.map((t) => t.name) ?? []`:
nullish tools give the empty list, a non-array gives a `TypeError` (its `.map`
is `undefined`), a `null` element gives a `TypeError` on `.name`. -/
def mapToolNames : List JValue → Except JsError (List JsVal)
  | [] => .ok []
  | .null :: _ => .error .typeError
  | x :: xs => do
    let rest ← mapToolNames xs
    .ok (propD x (chars "name") :: rest)

/-- The `type === "system"` branch: only the `init` subtype dispatches. -/
def dispatchSystem (v : JValue) : List Event × Option JsError :=
  match propD v (chars "subtype") with
  | .js (.str st) =>
    if st = chars "init" then
      let sid := propD v (chars "session_id")
      match propD v (chars "tools") with
      | .undefined => ([.systemInit sid []], none)
      | .js .null => ([.systemInit sid []], none)
      | .js (.arr xs) =>
        match mapToolNames xs with
        | .ok names => ([.systemInit sid names], none)
        | .error e => ([], some e)
      | _ => ([], some .typeError)
    else ([], none)
  | _ => ([], none)

/-- One content block of an `assistant` record: a truthy `text` block yields
one text event, a `tool_use` block yields one tool-use event (nullish `input`
defaulting to an empty object), anything else yields nothing; a `null` block
throws on the `block.type` access. -/
def dispatchBlockA (b : JValue) : Except JsError (List Event) :=
  match b with
  | .null => .error .typeError
  | _ =>
    match propD b (chars "type") with
    | .js (.str bt) =>
      if bt = chars "text" then
        let t := propD b (chars "text")
        if truthy t then .ok [.text t] else .ok []
      else if bt = chars "tool_use" then
        let inp := propD b (chars "input")
        .ok [.toolUse (propD b (chars "id")) (propD b (chars "name"))
              (if nullish inp then .js (.obj []) else inp)]
      else .ok []
    | _ => .ok []

/-- `c.text ?? ""` over one element of a `tool_result` content array; a `null`
element throws on the `c.text` access. -/
def textJoinElem (c : JValue) : Except JsError JsVal :=
  match c with
  | .null => .error .typeError
  | _ =>
    let t := propD c (chars "text")
    .ok (if nullish t then .js (.str []) else t)

/-- `rawContent.map((c) => c.text ?? "")`. -/
def mapTexts : List JValue → Except JsError (List JsVal)
  | [] => .ok []
  | c :: cs => do
    let x ← textJoinElem c
    let rest ← mapTexts cs
    .ok (x :: rest)

/-- `Array.prototype.join`'s per-element conversion: nullish renders empty,
anything else renders with `String(x)`. -/
def joinStrOf : JsVal → Str
  | .undefined => []
  | .js .null => []
  | .js jv => jsString jv

/-- Normalization of a `tool_result` block's `content` field
(`src/src/claude-runner.ts`, lines 155–165): a string is used verbatim, an
array joins the elements' `text` subfields with newlines, anything else is
`JSON.stringify`d (`JSON.stringify(undefined)` being `undefined`). -/
def normalizeToolContent : JsVal → Except JsError JsVal
  | .js (.str s) => .ok (.js (.str s))
  | .js (.arr cs) => do
    let xs ← mapTexts cs
    .ok (.js (.str (List.intercalate (chars "\n") (xs.map joinStrOf))))
  | .undefined => .ok .undefined
  | .js jv => .ok (.js (.str (stringifyJson jv)))

/-- One content block of a `user` record: a `tool_result` block yields one
tool-result event with normalized content. -/
def dispatchBlockU (b : JValue) : Except JsError (List Event) :=
  match b with
  | .null => .error .typeError
  | _ =>
    match propD b (chars "type") with
    | .js (.str bt) =>
      if bt = chars "tool_result" then do
        let c ← normalizeToolContent (propD b (chars "content"))
        .ok [.toolResult (propD b (chars "tool_use_id")) c]
      else .ok []
    | _ => .ok []

/-- Iterate a record's content blocks in order, keeping the events emitted
before any throw (callbacks already invoked are not undone by an exception). -/
def dispatchBlocks (f : JValue → Except JsError (List Event)) :
    List JValue → List Event × Option JsError
  | [] => ([], none)
  | b :: bs =>
    match f b with
    | .error e => ([], some e)
    | .ok evs =>
      let (rest, err) := dispatchBlocks f bs
      (evs ++ rest, err)

/-- `event.message?.content` (optional chain). -/
def contentOf (v : JValue) : JsVal :=
  match propD v (chars "message") with
  | .undefined => .undefined
  | .js .null => .undefined
  | .js m => propD m (chars "content")

/-- Shared shape of the `assistant` and `user` branches: a falsy content is
skipped; `for..of` over an array visits its blocks, over a string visits its
characters (none of which is a matching block, so nothing dispatches), and over
any other truthy value throws a `TypeError`. -/
def dispatchMsg (f : JValue → Except JsError (List Event)) (v : JValue) :
    List Event × Option JsError :=
  let content := contentOf v
  if truthy content then
    match content with
    | .js (.arr blocks) => dispatchBlocks f blocks
    | .js (.str _) => ([], none)
    | _ => ([], some .typeError)
  else ([], none)

/-- `x ?? 0` on the `result` record's numeric fields. -/
def coalesceNum (x : JsVal) : JsVal :=
  if nullish x then .js (.num JsNumber.zero) else x

/-- The `type === "result"` branch (`src/src/claude-runner.ts`, lines
175–186): `success` dispatches `onDone(num_turns ?? 0, cost_usd ?? 0)`;
`error` dispatches `onError(error ?? "Unknown error from Claude")`. -/
def dispatchResult (v : JValue) : List Event × Option JsError :=
  match propD v (chars "subtype") with
  | .js (.str st) =>
    if st = chars "success" then
      ([.done (coalesceNum (propD v (chars "num_turns")))
          (coalesceNum (propD v (chars "cost_usd")))], none)
    else if st = chars "error" then
      let e := propD v (chars "error")
      ([.error (if nullish e then .js (.str (chars "Unknown error from Claude")) else e)], none)
    else ([], none)
  | _ => ([], none)

/-- Dispatch of one successfully parsed record. Reading `event.type` throws a
`TypeError` when the record is the JSON literal `null` (that access is outside
the `try` block). A non-string or unknown discriminator dispatches nothing. -/
def parseAndDispatchJ : JValue → List Event × Option JsError
  | .null => ([], some .typeError)
  | v =>
    match propD v (chars "type") with
    | .js (.str t) =>
      if t = chars "system" then dispatchSystem v
      else if t = chars "assistant" then dispatchMsg dispatchBlockA v
      else if t = chars "user" then dispatchMsg dispatchBlockU v
      else if t = chars "result" then dispatchResult v
      else ([], none)
    | _ => ([], none)

/-- JavaScript `String.prototype.trim`. -/
def jsTrim (s : Str) : Str :=
  ((s.dropWhile Char.isWhitespace).reverse.dropWhile Char.isWhitespace).reverse

/-- `parseAndDispatch(line, callbacks)` (`src/src/claude-runner.ts`, lines
97–187): blank lines are skipped, a parse failure is caught and dispatches
nothing, and a parsed record is dispatched; the returned pair is the event
sequence delivered to the callbacks and the exception escaping the function,
if any. -/
def parseAndDispatch (line : Str) : List Event × Option JsError :=
  if jsTrim line = [] then ([], none)
  else
    match parseJson line with
    | none => ([], none)
    | some v => parseAndDispatchJ v

/-- Decidable equality of events (spelt out; fields hold `JsVal`s). -/
instance : DecidableEq Event
  | .systemInit a b, .systemInit c d =>
    match decEq a c, decEq b d with
    | isTrue h1, isTrue h2 => isTrue (by rw [h1, h2])
    | isFalse h1, _ => isFalse (by intro hc; injection hc; contradiction)
    | _, isFalse h2 => isFalse (by intro hc; injection hc; contradiction)
  | .text a, .text b =>
    match decEq a b with
    | isTrue h => isTrue (by rw [h])
    | isFalse h => isFalse (by intro hc; injection hc; contradiction)
  | .toolUse a b c, .toolUse d e f =>
    match decEq a d, decEq b e, decEq c f with
    | isTrue h1, isTrue h2, isTrue h3 => isTrue (by rw [h1, h2, h3])
    | isFalse h1, _, _ => isFalse (by intro hc; injection hc; contradiction)
    | _, isFalse h2, _ => isFalse (by intro hc; injection hc; contradiction)
    | _, _, isFalse h3 => isFalse (by intro hc; injection hc; contradiction)
  | .toolResult a b, .toolResult c d =>
    match decEq a c, decEq b d with
    | isTrue h1, isTrue h2 => isTrue (by rw [h1, h2])
    | isFalse h1, _ => isFalse (by intro hc; injection hc; contradiction)
    | _, isFalse h2 => isFalse (by intro hc; injection hc; contradiction)
  | .done a b, .done c d =>
    match decEq a c, decEq b d with
    | isTrue h1, isTrue h2 => isTrue (by rw [h1, h2])
    | isFalse h1, _ => isFalse (by intro hc; injection hc; contradiction)
    | _, isFalse h2 => isFalse (by intro hc; injection hc; contradiction)
  | .error a, .error b =>
    match decEq a b with
    | isTrue h => isTrue (by rw [h])
    | isFalse h => isFalse (by intro hc; injection hc; contradiction)
  | .systemInit _ _, .text _ => isFalse (by intro h; exact Event.noConfusion h)
  | .systemInit _ _, .toolUse _ _ _ => isFalse (by intro h; exact Event.noConfusion h)
  | .systemInit _ _, .toolResult _ _ => isFalse (by intro h; exact Event.noConfusion h)
  | .systemInit _ _, .done _ _ => isFalse (by intro h; exact Event.noConfusion h)
  | .systemInit _ _, .error _ => isFalse (by intro h; exact Event.noConfusion h)
  | .text _, .systemInit _ _ => isFalse (by intro h; exact Event.noConfusion h)
  | .text _, .toolUse _ _ _ => isFalse (by intro h; exact Event.noConfusion h)
  | .text _, .toolResult _ _ => isFalse (by intro h; exact Event.noConfusion h)
  | .text _, .done _ _ => isFalse (by intro h; exact Event.noConfusion h)
  | .text _, .error _ => isFalse (by intro h; exact Event.noConfusion h)
  | .toolUse _ _ _, .systemInit _ _ => isFalse (by intro h; exact Event.noConfusion h)
  | .toolUse _ _ _, .text _ => isFalse (by intro h; exact Event.noConfusion h)
  | .toolUse _ _ _, .toolResult _ _ => isFalse (by intro h; exact Event.noConfusion h)
  | .toolUse _ _ _, .done _ _ => isFalse (by intro h; exact Event.noConfusion h)
  | .toolUse _ _ _, .error _ => isFalse (by intro h; exact Event.noConfusion h)
  | .toolResult _ _, .systemInit _ _ => isFalse (by intro h; exact Event.noConfusion h)
  | .toolResult _ _, .text _ => isFalse (by intro h; exact Event.noConfusion h)
  | .toolResult _ _, .toolUse _ _ _ => isFalse (by intro h; exact Event.noConfusion h)
  | .toolResult _ _, .done _ _ => isFalse (by intro h; exact Event.noConfusion h)
  | .toolResult _ _, .error _ => isFalse (by intro h; exact Event.noConfusion h)
  | .done _ _, .systemInit _ _ => isFalse (by intro h; exact Event.noConfusion h)
  | .done _ _, .text _ => isFalse (by intro h; exact Event.noConfusion h)
  | .done _ _, .toolUse _ _ _ => isFalse (by intro h; exact Event.noConfusion h)
  | .done _ _, .toolResult _ _ => isFalse (by intro h; exact Event.noConfusion h)
  | .done _ _, .error _ => isFalse (by intro h; exact Event.noConfusion h)
  | .error _, .systemInit _ _ => isFalse (by intro h; exact Event.noConfusion h)
  | .error _, .text _ => isFalse (by intro h; exact Event.noConfusion h)
  | .error _, .toolUse _ _ _ => isFalse (by intro h; exact Event.noConfusion h)
  | .error _, .toolResult _ _ => isFalse (by intro h; exact Event.noConfusion h)
  | .error _, .done _ _ => isFalse (by intro h; exact Event.noConfusion h)

/-! ### The line framer
(`src/src/claude-runner.ts`, lines 238–247 and 268–278): the stdout handler
appends each chunk to a buffer, splits the buffer on newlines, keeps the final
segment (the unterminated remainder) as the new buffer and hands every other
segment to `parseAndDispatch`; on process close the remainder is flushed
through `parseAndDispatch` when it has non-whitespace content. -/

/-- Split a text into its complete newline-terminated records and the trailing
unterminated remainder (exactly `buffer.split("\n")` followed by popping the
last segment). -/
def frame : Str → List Str × Str
  | [] => ([], [])
  | c :: cs =>
    if c = '\n' then
      ([] :: (frame cs).1, (frame cs).2)
    else
      match frame cs with
      | ([], r) => ([], c :: r)
      | (l :: ls, r) => ((c :: l) :: ls, r)

/-- One `data` callback at the level of the already-decoded chunk text (the
byte level, with the per-chunk decoding, is modelled below as
`feedChunkBytes`): the records dispatched for this chunk and the new
buffer. -/
def feedChunk (buffer chunk : Str) : List Str × Str :=
  frame (buffer ++ chunk)

/-- A whole sequence of `data` callbacks over decoded text chunks starting
from the given buffer: all records dispatched, in order, and the final
buffer. -/
def feedAll : Str → List Str → List Str × Str
  | buffer, [] => ([], buffer)
  | buffer, chunk :: rest =>
    let (recs, buffer1) := feedChunk buffer chunk
    let (recs2, buffer2) := feedAll buffer1 rest
    (recs ++ recs2, buffer2)

/-- Every record handed to `parseAndDispatch` over a run of decoded text
chunks: the records of every `data` callback, then, on close, the final
buffer when its trimmed content is nonempty
(`if (buffer.trim()) parseAndDispatch(buffer, callbacks)`). -/
def runnerRecords (chunks : List Str) : List Str :=
  let (recs, buffer) := feedAll [] chunks
  recs ++ (if jsTrim buffer = [] then [] else [buffer])

/-- Single-pass framing of a whole text: its records plus the flushed
remainder. -/
def frameRecords (s : Str) : List Str :=
  let (recs, buffer) := frame s
  recs ++ (if jsTrim buffer = [] then [] else [buffer])

/-! ### Settings (`src/src/settings.ts`) -/

/-- The permission toggles. -/
structure ClaudianPermissions where
  readVault : Bool
  listVaultStructure : Bool
  editCurrentFile : Bool
  editAnyFile : Bool
  createFiles : Bool
deriving DecidableEq, Repr

/-- Plugin settings (the fields `buildToolsList` can reach). -/
structure ClaudianSettings where
  claudeBinaryPath : Str
  model : Str
  clearChatOnStart : Bool
  permissions : ClaudianPermissions
deriving DecidableEq, Repr

/-- `buildToolsList` (`src/src/settings.ts`, lines 32–48): the allow-list of
tool names handed to the spawned process, built by pushes onto a list seeded
with `"Read"`. -/
def buildToolsList (settings : ClaudianSettings) : List Str :=
  [chars "Read"] ++
    (if settings.permissions.listVaultStructure
      then [chars "Glob", chars "Grep", chars "LS"] else []) ++
    (if settings.permissions.editCurrentFile ∨ settings.permissions.editAnyFile
      then [chars "Edit"] else []) ++
    (if settings.permissions.editAnyFile ∨ settings.permissions.createFiles
      then [chars "Write"] else [])

/-! ### The modal orchestrator (`ClaudianModal`)
State machine distilled from the modal class's mutable fields, with all
DOM-only state (elements, CSS classes, the loading indicator, scrolling)
omitted. The `saves` and `spawns` fields are logs of the calls crossing the
storage boundary (`this.storage.save(...)`) and the process boundary
(`runClaude({...})`); the source performs those effects where the model
appends to the log. -/

/-- The modal's status field. -/
inductive ModalStatus where
  | idle | running | done | error | cancelled
deriving DecidableEq, Repr

/-- The two UI modes. -/
inductive UiMode where
  | quick | chat
deriving DecidableEq, Repr

/-- One persisted conversation turn (`ChatTurnData`). -/
structure ChatTurnData where
  userText : Str
  claudeMarkdown : Str
deriving DecidableEq, Repr

/-- One callback invocation delivered to the modal by the runner. Texts, ids
and names are the strings the TypeScript callback signatures declare. -/
inductive CbEvent where
  | text (t : Str) : CbEvent
  | toolUse (id name : Str) : CbEvent
  | toolResult (id content : Str) : CbEvent
  | sysInit (sessionId : Str) (tools : List Str) : CbEvent
  | done (turns costUsd : JsNumber) : CbEvent
  | error (msg : Str) : CbEvent
deriving DecidableEq, Repr

/-- The modal's mutable state (DOM-only fields omitted; `textBlockOpen` stands
for `currentTextBlock !== null`, `runnerActive` for `runner !== null`). -/
structure ModalState where
  status : ModalStatus
  mode : UiMode
  runMode : UiMode
  runnerActive : Bool
  promptText : Str
  sessionId : Option Str
  persistedTurns : List ChatTurnData
  currentTurnMarkdown : Str
  currentTextContent : Str
  textBlockOpen : Bool
  toolCards : List (Str × Str)
  saves : List (Option Str × List ChatTurnData)
  spawns : List Str
  activePrompt : Str
  turns : JsNumber
  costUsd : JsNumber
deriving DecidableEq, Repr

/-- A fresh modal (field initializers of the class). -/
def initModal : ModalState where
  status := .idle
  mode := .quick
  runMode := .quick
  runnerActive := false
  promptText := []
  sessionId := none
  persistedTurns := []
  currentTurnMarkdown := []
  currentTextContent := []
  textBlockOpen := false
  toolCards := []
  saves := []
  spawns := []
  activePrompt := []
  turns := JsNumber.zero
  costUsd := JsNumber.zero

/-- `Map.set` on the tool-card map: replace in place when the key exists,
append otherwise. -/
def cardsSet : List (Str × Str) → Str → Str → List (Str × Str)
  | [], k, v => [(k, v)]
  | (k', v') :: rest, k, v =>
    if k' = k then (k, v) :: rest else (k', v') :: cardsSet rest k v

/-- `Map.get` on the tool-card map. -/
def cardsGet : List (Str × Str) → Str → Option Str
  | [], _ => none
  | (k', v') :: rest, k => if k' = k then some v' else cardsGet rest k

/-- `Map.delete` on the tool-card map. -/
def cardsDelete : List (Str × Str) → Str → List (Str × Str)
  | [], _ => []
  | (k', v') :: rest, k => if k' = k then rest else (k', v') :: cardsDelete rest k

/-- `handleText` (modal, lines 417–435): open a fresh text block when none is
open, then append the text to the live block content and to the turn
markdown. -/
def handleText (s : ModalState) (t : Str) : ModalState :=
  let s1 :=
    if s.textBlockOpen then s
    else { s with textBlockOpen := true, currentTextContent := [] }
  { s1 with
    currentTextContent := s1.currentTextContent ++ t
    currentTurnMarkdown := s1.currentTurnMarkdown ++ t }

/-- `handleToolUse` (modal, lines 437–490): append a separator to the turn
markdown when it is nonempty and does not already end with one, close the live
text block and register the tool card under the event's id. -/
def handleToolUse (s : ModalState) (id name : Str) : ModalState :=
  let md := s.currentTurnMarkdown
  let md2 :=
    if md ≠ [] ∧ (chars "\n\n").isSuffixOf md = false then md ++ chars "\n\n" else md
  { s with
    currentTurnMarkdown := md2
    textBlockOpen := false
    currentTextContent := []
    toolCards := cardsSet s.toolCards id name }

/-- `handleToolResult` (modal, lines 492–498): an unmatched id is a no-op,
a matched id removes the card. -/
def handleToolResult (s : ModalState) (id : Str) : ModalState :=
  match cardsGet s.toolCards id with
  | none => s
  | some _ => { s with toolCards := cardsDelete s.toolCards id }

/-- The `onSystemInit` callback: recorded only by the chat-mode callbacks
(quick mode installs a no-op). -/
def handleSystemInit (s : ModalState) (sid : Str) : ModalState :=
  match s.runMode with
  | .chat => { s with sessionId := some sid }
  | .quick => s

/-- The `onDone` callback: chat mode appends the finalized turn, hands the
session to the storage boundary and resets the live accumulation state; quick
mode records the totals only. -/
def handleDone (s : ModalState) (t c : JsNumber) : ModalState :=
  match s.runMode with
  | .chat =>
    let newTurns := s.persistedTurns ++ [⟨s.activePrompt, s.currentTurnMarkdown⟩]
    { s with
      turns := t
      costUsd := c
      persistedTurns := newTurns
      saves := s.saves ++ [(s.sessionId, newTurns)]
      textBlockOpen := false
      currentTextContent := []
      currentTurnMarkdown := []
      status := .done }
  | .quick => { s with turns := t, costUsd := c, status := .done }

/-- The `onError` callback: `appendError` closes the live text block in both
modes; chat mode additionally discards the turn markdown. -/
def handleError (s : ModalState) (_msg : Str) : ModalState :=
  let s1 := { s with textBlockOpen := false, currentTextContent := [] }
  match s.runMode with
  | .chat => { s1 with currentTurnMarkdown := [], status := .error }
  | .quick => { s1 with status := .error }

/-- Deliver one runner callback to the modal. -/
def applyEvent (s : ModalState) : CbEvent → ModalState
  | .text t => handleText s t
  | .toolUse id name => handleToolUse s id name
  | .toolResult id _ => handleToolResult s id
  | .sysInit sid _ => handleSystemInit s sid
  | .done t c => handleDone s t c
  | .error m => handleError s m

/-- Deliver a sequence of runner callbacks in order. -/
def applyEvents (s : ModalState) (evs : List CbEvent) : ModalState :=
  evs.foldl applyEvent s

/-- `runChat` (modal, lines 237–298): reset the per-turn accumulation state,
clear the prompt box, enter running status and spawn a runner wired to the
chat-mode callbacks. -/
def runChat (s : ModalState) (prompt : Str) : ModalState :=
  { s with
    toolCards := []
    textBlockOpen := false
    currentTextContent := []
    currentTurnMarkdown := []
    promptText := []
    status := .running
    runnerActive := true
    runMode := .chat
    activePrompt := prompt
    spawns := s.spawns ++ [prompt] }

/-- `runQuick` (modal, lines 196–235): reset the output and per-run state
(the quick path does not touch the turn markdown or the prompt box), enter
running status and spawn a runner wired to the quick-mode callbacks. -/
def runQuick (s : ModalState) (prompt : Str) : ModalState :=
  { s with
    toolCards := []
    textBlockOpen := false
    currentTextContent := []
    turns := JsNumber.zero
    costUsd := JsNumber.zero
    status := .running
    runnerActive := true
    runMode := .quick
    activePrompt := prompt
    spawns := s.spawns ++ [prompt] }

/-- `handleRun` (modal, lines 183–194): a no-op while a run is in progress or
when the trimmed prompt is empty; otherwise dispatch to the mode's run
entry. -/
def handleRun (s : ModalState) : ModalState :=
  if s.status = .running then s
  else
    let p := jsTrim s.promptText
    if p = [] then s
    else
      match s.mode with
      | .chat => runChat s p
      | .quick => runQuick s p

/-- `handleCancel` (modal, lines 399–415): while a run is in progress, kill
the runner, discard the in-progress chat accumulation and mark the run
cancelled; otherwise the modal merely closes (outside the model). -/
def handleCancel (s : ModalState) : ModalState :=
  if s.status = .running ∧ s.runnerActive then
    let s1 := { s with runnerActive := false }
    let s2 :=
      if s.mode = .chat then
        { s1 with currentTurnMarkdown := [], textBlockOpen := false, currentTextContent := [] }
      else s1
    { s2 with status := .cancelled }
  else s

/-! ### Claim theorems -/

/-- C9: for every settings value, the allow-list `buildToolsList` builds starts
with `"Read"`: it is never empty and always permits the Read tool, whatever the
permission toggles. -/
theorem buildToolsList_always_permits_read (settings : ClaudianSettings) :
    (buildToolsList settings).head? = some (chars "Read")
    ∧ buildToolsList settings ≠ []
    ∧ chars "Read" ∈ buildToolsList settings := by
  refine ⟨rfl, by simp [buildToolsList], by simp [buildToolsList]⟩

/-- C3 counterexample: the line `null` parses as JSON, and dispatching it
raises an observable `TypeError` (the `event.type` access is outside the
`try`), so `parseAndDispatch` does not return normally on every input line. -/
theorem parseAndDispatch_null_line_raises :
    parseAndDispatch (chars "null") = ([], some JsError.typeError)
    ∧ some JsError.typeError ≠ (none : Option JsError) := by
  exact ⟨by decide, by decide⟩

/-- C3 amended: for every input line whose JSON parse fails, `parseAndDispatch`
returns normally with no event and no raised error (a line that parses to a
record of unexpected shape, such as the literal `null`, can still raise). -/
theorem parseAndDispatch_parse_failure_silent (line : Str)
    (h : parseJson line = none) : parseAndDispatch line = ([], none) := by
  unfold parseAndDispatch
  by_cases ht : jsTrim line = []
  · simp [ht]
  · simp [ht, h]

/-- C3 witness: the spec's example line `not json at all` fails to parse and
yields no event. -/
theorem parseAndDispatch_parse_failure_silent_witness :
    parseAndDispatch (chars "not json at all") = ([], none) :=
  parseAndDispatch_parse_failure_silent (chars "not json at all") (by decide)

/-- The `?? 0` defaulting of a `result` record's numeric field, phrased over
the record's member list: absent or `null` defaults to `0`, any other value
passes through. -/
def jsOrZero : Option JValue → JsVal
  | none => .js (.num JsNumber.zero)
  | some .null => .js (.num JsNumber.zero)
  | some x => .js x

/-- `coalesceNum` over a property read is `jsOrZero` over the field lookup. -/
theorem coalesceNum_match (o : Option JValue) :
    coalesceNum (match o with | some x => JsVal.js x | none => JsVal.undefined) =
      jsOrZero o := by
  cases o with
  | none => simp [coalesceNum, nullish, jsOrZero]
  | some x => cases x <;> simp [coalesceNum, nullish, jsOrZero]

/-- C1 counterexample: a `result`/`error` record with no `error` field
dispatches the placeholder `"Unknown error from Claude"`, not `"Unknown
error"`; and a `success` record with `num_turns` present as `null` dispatches
turns `0`, not the record's `num_turns`. -/
theorem result_record_dispatch_counterexample :
    parseAndDispatch (chars "\x7b\"type\":\"result\",\"subtype\":\"error\"\x7d")
      = ([Event.error (.js (.str (chars "Unknown error from Claude")))], none)
    ∧ chars "Unknown error from Claude" ≠ chars "Unknown error"
    ∧ parseAndDispatch
        (chars "\x7b\"type\":\"result\",\"subtype\":\"success\",\"num_turns\":null\x7d")
      = ([Event.done (.js (.num JsNumber.zero)) (.js (.num JsNumber.zero))], none)
    ∧ JsVal.js (.num JsNumber.zero) ≠ .js .null := by
  exact ⟨by decide, by decide, by decide, by decide⟩

/-- C1 amended: for every record with discriminator `result`: the `success`
subtype dispatches exactly one success turn-result whose turns and cost equal
the record's `num_turns` and `cost_usd` (each defaulting to `0` when absent or
`null`); the `error` subtype with no `error` field dispatches exactly one error
turn-result carrying the placeholder `"Unknown error from Claude"`. -/
theorem result_record_dispatch (fs : List (Str × JValue))
    (htype : lookupF fs (chars "type") = some (.str (chars "result"))) :
    (lookupF fs (chars "subtype") = some (.str (chars "success")) →
      parseAndDispatchJ (.obj fs) =
        ([Event.done (jsOrZero (lookupF fs (chars "num_turns")))
            (jsOrZero (lookupF fs (chars "cost_usd")))], none))
    ∧ (lookupF fs (chars "subtype") = some (.str (chars "error")) →
        lookupF fs (chars "error") = none →
        parseAndDispatchJ (.obj fs) =
          ([Event.error (.js (.str (chars "Unknown error from Claude")))], none)) := by
  constructor
  · intro hsub
    simp +decide [parseAndDispatchJ, propD, htype, dispatchResult, hsub]
    exact ⟨coalesceNum_match _, coalesceNum_match _⟩
  · intro hsub herr
    simp +decide [parseAndDispatchJ, propD, htype, dispatchResult, hsub, herr,
      nullish]

/-- C1 witness: the spec's concrete success record dispatches `onDone(3, 0.02)`
and the bare error record dispatches the placeholder message. -/
theorem result_record_dispatch_witness :
    parseAndDispatchJ (.obj [(chars "type", .str (chars "result")),
        (chars "subtype", .str (chars "success")),
        (chars "num_turns", .num ⟨3, 0⟩), (chars "cost_usd", .num ⟨2, -2⟩)]) =
      ([Event.done (.js (.num ⟨3, 0⟩)) (.js (.num ⟨2, -2⟩))], none)
    ∧ parseAndDispatchJ (.obj [(chars "type", .str (chars "result")),
        (chars "subtype", .str (chars "error"))]) =
      ([Event.error (.js (.str (chars "Unknown error from Claude")))], none) := by
  refine ⟨(result_record_dispatch _ (by decide)).1 (by decide), ?_⟩
  exact (result_record_dispatch _ (by decide)).2 (by decide) (by decide)

/-- C6: while a turn is active the assistant transcript grows monotonically:
a text event appends exactly its text, a tool-use event only appends (the
separator or nothing), and a tool-result event leaves the transcript text
unchanged. -/
theorem transcript_monotone (s : ModalState) (e : CbEvent) :
    (∀ t, e = .text t →
      (applyEvent s e).currentTurnMarkdown = s.currentTurnMarkdown ++ t)
    ∧ (∀ id name, e = .toolUse id name →
        ∃ suffix, (applyEvent s e).currentTurnMarkdown = s.currentTurnMarkdown ++ suffix)
    ∧ (∀ id c, e = .toolResult id c →
        (applyEvent s e).currentTurnMarkdown = s.currentTurnMarkdown) := by
  refine ⟨?_, ?_, ?_⟩
  · intro t ht
    subst ht
    by_cases hb : s.textBlockOpen <;> simp [applyEvent, handleText, hb]
  · intro id name ht
    subst ht
    by_cases hc : s.currentTurnMarkdown ≠ [] ∧
        (chars "\n\n").isSuffixOf s.currentTurnMarkdown = false
    · exact ⟨chars "\n\n", by simp [applyEvent, handleToolUse, hc]⟩
    · exact ⟨[], by simp [applyEvent, handleToolUse, hc]⟩
  · intro id c ht
    subst ht
    cases hg : cardsGet s.toolCards id <;>
      simp [applyEvent, handleToolResult, hg]

/-- C6 witness: the three cases at a concrete state. -/
theorem transcript_monotone_witness :
    (applyEvent initModal (.text (chars "hi"))).currentTurnMarkdown =
      initModal.currentTurnMarkdown ++ chars "hi"
    ∧ (∃ suffix, (applyEvent initModal
        (.toolUse (chars "t1") (chars "Read"))).currentTurnMarkdown =
          initModal.currentTurnMarkdown ++ suffix)
    ∧ (applyEvent initModal
        (.toolResult (chars "t1") (chars "ok"))).currentTurnMarkdown =
          initModal.currentTurnMarkdown := by
  refine ⟨(transcript_monotone initModal _).1 _ rfl,
    (transcript_monotone initModal _).2.1 _ _ rfl,
    (transcript_monotone initModal _).2.2 _ _ rfl⟩

/-- Keys of the tool-card map. -/
def cardKeys (m : List (Str × Str)) : List Str := m.map Prod.fst

@[simp]
theorem cardKeys_nil : cardKeys [] = [] := rfl

@[simp]
theorem cardKeys_cons (k v : Str) (rest : List (Str × Str)) :
    cardKeys ((k, v) :: rest) = k :: cardKeys rest := rfl

/-- A key outside the map has no entry. -/
theorem cardsGet_eq_none (m : List (Str × Str)) (k : Str)
    (h : k ∉ cardKeys m) : cardsGet m k = none := by
  induction m with
  | nil => rfl
  | cons p rest ih =>
    obtain ⟨k', v'⟩ := p
    rw [cardKeys_cons] at h
    simp only [List.mem_cons, not_or] at h
    simp only [cardsGet, if_neg (fun hq : k' = k => h.1 hq.symm)]
    exact ih h.2

/-- Membership in a `Map.set` image. -/
theorem mem_cardKeys_cardsSet (m : List (Str × Str)) (k v x : Str)
    (h : x ∈ cardKeys (cardsSet m k v)) : x ∈ cardKeys m ∨ x = k := by
  induction m with
  | nil =>
    simp only [cardsSet, cardKeys_cons, cardKeys_nil, List.mem_singleton] at h
    exact Or.inr h
  | cons p rest ih =>
    obtain ⟨k', v'⟩ := p
    by_cases hk : k' = k
    · subst hk
      simp only [cardsSet, if_true, eq_self_iff_true, cardKeys_cons,
        List.mem_cons] at h
      rcases h with h | h
      · exact Or.inr h
      · exact Or.inl (by simp only [cardKeys_cons, List.mem_cons]; exact Or.inr h)
    · simp only [cardsSet, if_neg hk, cardKeys_cons, List.mem_cons] at h
      rcases h with h | h
      · exact Or.inl (by simp only [cardKeys_cons, List.mem_cons]; exact Or.inl h)
      · rcases ih h with h2 | h2
        · exact Or.inl (by simp only [cardKeys_cons, List.mem_cons]; exact Or.inr h2)
        · exact Or.inr h2

/-- `Map.set` preserves key uniqueness. -/
theorem nodup_cardsSet (m : List (Str × Str)) (k v : Str)
    (h : (cardKeys m).Nodup) : (cardKeys (cardsSet m k v)).Nodup := by
  induction m with
  | nil => simp [cardsSet]
  | cons p rest ih =>
    obtain ⟨k', v'⟩ := p
    rw [cardKeys_cons, List.nodup_cons] at h
    by_cases hk : k' = k
    · subst hk
      simp only [cardsSet, if_true, eq_self_iff_true, cardKeys_cons,
        List.nodup_cons]
      exact h
    · simp only [cardsSet, if_neg hk, cardKeys_cons, List.nodup_cons]
      refine ⟨?_, ih h.2⟩
      intro hx
      rcases mem_cardKeys_cardsSet rest k v k' hx with h2 | h2
      · exact h.1 h2
      · exact hk h2

/-- `Map.delete` yields a sublist. -/
theorem cardsDelete_sublist (m : List (Str × Str)) (k : Str) :
    (cardsDelete m k).Sublist m := by
  induction m with
  | nil => simp [cardsDelete]
  | cons p rest ih =>
    obtain ⟨k', v'⟩ := p
    by_cases hk : k' = k
    · simp only [cardsDelete, if_pos hk]
      exact List.sublist_cons_of_sublist _ (List.Sublist.refl rest)
    · simp only [cardsDelete, if_neg hk]
      exact List.Sublist.cons₂ _ ih

/-- `Map.delete` preserves key uniqueness. -/
theorem nodup_cardsDelete (m : List (Str × Str)) (k : Str)
    (h : (cardKeys m).Nodup) : (cardKeys (cardsDelete m k)).Nodup :=
  h.sublist ((cardsDelete_sublist m k).map Prod.fst)

/-- Deleting a key from a unique-key map removes its entry entirely. -/
theorem cardsGet_cardsDelete (m : List (Str × Str)) (k : Str)
    (h : (cardKeys m).Nodup) : cardsGet (cardsDelete m k) k = none := by
  induction m with
  | nil => rfl
  | cons p rest ih =>
    obtain ⟨k', v'⟩ := p
    rw [cardKeys_cons, List.nodup_cons] at h
    by_cases hk : k' = k
    · subst hk
      simp only [cardsDelete, if_pos rfl]
      exact cardsGet_eq_none rest k' h.1
    · simp only [cardsDelete, if_neg hk, cardsGet, if_neg hk]
      exact ih h.2

/-- Every modal callback preserves key uniqueness of the tool-card map. -/
theorem applyEvent_nodup (s : ModalState) (e : CbEvent)
    (h : (cardKeys s.toolCards).Nodup) :
    (cardKeys ((applyEvent s e).toolCards)).Nodup := by
  cases e with
  | text t =>
    by_cases hb : s.textBlockOpen <;> simpa [applyEvent, handleText, hb] using h
  | toolUse id name =>
    simpa [applyEvent, handleToolUse] using nodup_cardsSet _ _ _ h
  | toolResult id c =>
    cases hg : cardsGet s.toolCards id with
    | none => simpa [applyEvent, handleToolResult, hg] using h
    | some v =>
      simpa [applyEvent, handleToolResult, hg] using nodup_cardsDelete _ _ h
  | sysInit sid tools =>
    cases hm : s.runMode <;> simpa [applyEvent, handleSystemInit, hm] using h
  | done t c =>
    cases hm : s.runMode <;> simpa [applyEvent, handleDone, hm] using h
  | error m =>
    cases hm : s.runMode <;> simpa [applyEvent, handleError, hm] using h

/-- Callback sequences preserve key uniqueness of the tool-card map. -/
theorem applyEvents_nodup (evs : List CbEvent) : ∀ s : ModalState,
    (cardKeys s.toolCards).Nodup →
    (cardKeys ((applyEvents s evs).toolCards)).Nodup := by
  induction evs with
  | nil => intro s h; exact h
  | cons e rest ih =>
    intro s h
    exact ih _ (applyEvent_nodup s e h)

/-- After a tool-result event the tracker holds no entry for its id. -/
theorem toolResult_clears (s : ModalState) (id c : Str)
    (h : (cardKeys s.toolCards).Nodup) :
    cardsGet ((applyEvent s (.toolResult id c)).toolCards) id = none := by
  cases hg : cardsGet s.toolCards id with
  | none => simp [applyEvent, handleToolResult, hg]
  | some v =>
    simpa [applyEvent, handleToolResult, hg] using cardsGet_cardsDelete _ _ h

/-- C8: after a tool-use for an id, any later events, and then a tool-result
for that id, the tracker has no entry for the id; and a tool-result whose id
matches no entry is a no-op that changes nothing and raises nothing. -/
theorem tracker_resolution (s : ModalState) (id name content : Str)
    (evs : List CbEvent) (hnodup : (cardKeys s.toolCards).Nodup) :
    cardsGet ((applyEvents (applyEvent s (.toolUse id name))
        (evs ++ [.toolResult id content])).toolCards) id = none
    ∧ (cardsGet s.toolCards id = none →
        applyEvent s (.toolResult id content) = s) := by
  constructor
  · have h1 : (cardKeys ((applyEvents (applyEvent s (.toolUse id name))
        evs).toolCards)).Nodup :=
      applyEvents_nodup evs _ (applyEvent_nodup s _ hnodup)
    have h2 : applyEvents (applyEvent s (.toolUse id name))
        (evs ++ [CbEvent.toolResult id content]) =
        applyEvent (applyEvents (applyEvent s (.toolUse id name)) evs)
          (.toolResult id content) := by
      simp [applyEvents, List.foldl_append]
    rw [h2]
    exact toolResult_clears _ _ _ h1
  · intro hg
    simp [applyEvent, handleToolResult, hg]

/-- C8 witness: the spec's `t1`/`t9` scenario at a concrete state. -/
theorem tracker_resolution_witness :
    cardsGet ((applyEvents (applyEvent initModal
        (.toolUse (chars "t1") (chars "Read")))
        ([] ++ [.toolResult (chars "t1") (chars "ok")])).toolCards)
      (chars "t1") = none
    ∧ applyEvent initModal (.toolResult (chars "t9") (chars "ok")) = initModal := by
  refine ⟨(tracker_resolution initModal (chars "t1") (chars "Read") (chars "ok")
      [] (by decide)).1, ?_⟩
  exact (tracker_resolution initModal (chars "t9") (chars "x") (chars "ok")
      [] (by decide)).2 (by decide)

/-- C10: while the status is `running`, invoking the run entry point changes
no state and spawns nothing; the same holds when the trimmed prompt is empty;
and whenever a spawn does happen, the previous status was not `running`, the
new status is `running`, and exactly one runner was spawned — so at most one
runner is active per modal instance at any time. -/
theorem handleRun_guards (s : ModalState) :
    (s.status = .running → handleRun s = s)
    ∧ (jsTrim s.promptText = [] → handleRun s = s)
    ∧ ((handleRun s).spawns ≠ s.spawns →
        s.status ≠ .running ∧ (handleRun s).status = .running
        ∧ (handleRun s).spawns = s.spawns ++ [jsTrim s.promptText]) := by
  refine ⟨?_, ?_, ?_⟩
  · intro h
    simp [handleRun, h]
  · intro h
    by_cases hr : s.status = .running
    · simp [handleRun, hr]
    · simp [handleRun, hr, h]
  · intro hspawn
    by_cases hr : s.status = .running
    · exact absurd (by simp [handleRun, hr]) hspawn
    · by_cases hp : jsTrim s.promptText = []
      · exact absurd (by simp [handleRun, hr, hp]) hspawn
      · cases hm : s.mode with
        | chat =>
          refine ⟨hr, ?_, ?_⟩ <;> simp [handleRun, hr, hp, hm, runChat]
        | quick =>
          refine ⟨hr, ?_, ?_⟩ <;> simp [handleRun, hr, hp, hm, runQuick]

/-- C10 witness: the three cases at concrete states. -/
theorem handleRun_guards_witness :
    handleRun { initModal with status := .running, promptText := chars "x" } =
      { initModal with status := .running, promptText := chars "x" }
    ∧ handleRun { initModal with promptText := chars "  " } =
      { initModal with promptText := chars "  " }
    ∧ (({ initModal with promptText := chars "go" } : ModalState).status ≠ .running
        ∧ (handleRun { initModal with promptText := chars "go" }).status = .running
        ∧ (handleRun { initModal with promptText := chars "go" }).spawns =
            ({ initModal with promptText := chars "go" } : ModalState).spawns ++
              [jsTrim ({ initModal with promptText := chars "go" } : ModalState).promptText]) := by
  refine ⟨(handleRun_guards _).1 rfl, (handleRun_guards _).2.1 (by decide),
    (handleRun_guards _).2.2 (by decide)⟩

/-- Events that do not finalize the turn. -/
def CbEvent.isTerminal : CbEvent → Bool
  | .done _ _ => true
  | .error _ => true
  | _ => false

/-- A non-terminal callback touches neither the persisted turns, the storage
log, the status, the runner handle nor the mode. -/
theorem nonterminal_preserves (s : ModalState) (e : CbEvent)
    (h : e.isTerminal = false) :
    (applyEvent s e).persistedTurns = s.persistedTurns
    ∧ (applyEvent s e).saves = s.saves
    ∧ (applyEvent s e).status = s.status
    ∧ (applyEvent s e).runnerActive = s.runnerActive
    ∧ (applyEvent s e).mode = s.mode := by
  cases e with
  | text t =>
    by_cases hb : s.textBlockOpen <;> simp [applyEvent, handleText, hb]
  | toolUse id name => simp [applyEvent, handleToolUse]
  | toolResult id c =>
    cases hg : cardsGet s.toolCards id <;> simp [applyEvent, handleToolResult, hg]
  | sysInit sid tools =>
    cases hm : s.runMode <;> simp [applyEvent, handleSystemInit, hm]
  | done t c => simp [CbEvent.isTerminal] at h
  | error m => simp [CbEvent.isTerminal] at h

/-- Non-terminal callback sequences preserve the same fields. -/
theorem nonterminal_events_preserve (evs : List CbEvent) : ∀ s : ModalState,
    (∀ e ∈ evs, e.isTerminal = false) →
    (applyEvents s evs).persistedTurns = s.persistedTurns
    ∧ (applyEvents s evs).saves = s.saves
    ∧ (applyEvents s evs).status = s.status
    ∧ (applyEvents s evs).runnerActive = s.runnerActive
    ∧ (applyEvents s evs).mode = s.mode := by
  induction evs with
  | nil => intro s _; exact ⟨rfl, rfl, rfl, rfl, rfl⟩
  | cons e rest ih =>
    intro s h
    have h1 := nonterminal_preserves s e (h e (List.mem_cons_self e rest))
    have h2 := ih (applyEvent s e) (fun x hx => h x (List.mem_cons_of_mem e hx))
    have hfold : applyEvents s (e :: rest) = applyEvents (applyEvent s e) rest := rfl
    rw [hfold]
    exact ⟨h2.1.trans h1.1, h2.2.1.trans h1.2.1, h2.2.2.1.trans h1.2.2.1,
      h2.2.2.2.1.trans h1.2.2.2.1, h2.2.2.2.2.trans h1.2.2.2.2⟩

/-- C5: cancelling a chat run that has received only non-terminal events (no
turn result) appends no turn, hands nothing to the storage boundary, discards
the in-progress transcript and marks the run cancelled. -/
theorem cancel_discards_turn (s0 : ModalState) (prompt : Str)
    (evs : List CbEvent) (hmode : s0.mode = .chat)
    (hnt : ∀ e ∈ evs, e.isTerminal = false) :
    (handleCancel (applyEvents (runChat s0 prompt) evs)).persistedTurns =
      s0.persistedTurns
    ∧ (handleCancel (applyEvents (runChat s0 prompt) evs)).saves = s0.saves
    ∧ (handleCancel (applyEvents (runChat s0 prompt) evs)).currentTurnMarkdown = []
    ∧ (handleCancel (applyEvents (runChat s0 prompt) evs)).status = .cancelled := by
  have hp := nonterminal_events_preserve evs (runChat s0 prompt) hnt
  have hstatus : (applyEvents (runChat s0 prompt) evs).status = .running := by
    rw [hp.2.2.1]; rfl
  have hrunner : (applyEvents (runChat s0 prompt) evs).runnerActive = true := by
    rw [hp.2.2.2.1]; rfl
  have hm : (applyEvents (runChat s0 prompt) evs).mode = .chat := by
    rw [hp.2.2.2.2, runChat, hmode]
  have hturns : (applyEvents (runChat s0 prompt) evs).persistedTurns =
      s0.persistedTurns := by rw [hp.1]; rfl
  have hsaves : (applyEvents (runChat s0 prompt) evs).saves = s0.saves := by
    rw [hp.2.1]; rfl
  refine ⟨?_, ?_, ?_, ?_⟩ <;>
    simp [handleCancel, hstatus, hrunner, hm, hturns, hsaves]

/-- C5 witness: cancelling after an init and a text event at a concrete
state. -/
theorem cancel_discards_turn_witness :
    (handleCancel (applyEvents (runChat { initModal with mode := .chat }
        (chars "hi")) [.sysInit (chars "abc") [], .text (chars "Hello")])).persistedTurns =
      ({ initModal with mode := .chat } : ModalState).persistedTurns
    ∧ (handleCancel (applyEvents (runChat { initModal with mode := .chat }
        (chars "hi")) [.sysInit (chars "abc") [], .text (chars "Hello")])).saves =
      ({ initModal with mode := .chat } : ModalState).saves
    ∧ (handleCancel (applyEvents (runChat { initModal with mode := .chat }
        (chars "hi")) [.sysInit (chars "abc") [], .text (chars "Hello")])).currentTurnMarkdown = []
    ∧ (handleCancel (applyEvents (runChat { initModal with mode := .chat }
        (chars "hi")) [.sysInit (chars "abc") [], .text (chars "Hello")])).status = .cancelled := by
  exact cancel_discards_turn { initModal with mode := .chat } (chars "hi")
    [.sysInit (chars "abc") [], .text (chars "Hello")] rfl (by decide)

/-- C2: a chat run that receives, in order, a system init with session id
`"abc"`, two assistant text events, a tool use, the matching tool result and a
success turn result persists exactly one new turn whose assistant transcript is
the two text segments joined (followed only by the blank-line separator the
tool use inserted — no tool-call content); the session id is `"abc"`, the
tool-call tracker is empty afterward, and the turn was handed to the storage
boundary. -/
theorem chat_run_scenario (s0 : ModalState) (p t1 t2 id name rcontent : Str)
    (tn cn : JsNumber)
    (hne : t1 ++ t2 ≠ [])
    (hsuf : (chars "\n\n").isSuffixOf (t1 ++ t2) = false) :
    (applyEvents (runChat s0 p)
        [.sysInit (chars "abc") [], .text t1, .text t2, .toolUse id name,
         .toolResult id rcontent, .done tn cn]).persistedTurns =
      s0.persistedTurns ++ [⟨p, (t1 ++ t2) ++ chars "\n\n"⟩]
    ∧ (applyEvents (runChat s0 p)
        [.sysInit (chars "abc") [], .text t1, .text t2, .toolUse id name,
         .toolResult id rcontent, .done tn cn]).sessionId = some (chars "abc")
    ∧ (applyEvents (runChat s0 p)
        [.sysInit (chars "abc") [], .text t1, .text t2, .toolUse id name,
         .toolResult id rcontent, .done tn cn]).toolCards = []
    ∧ (applyEvents (runChat s0 p)
        [.sysInit (chars "abc") [], .text t1, .text t2, .toolUse id name,
         .toolResult id rcontent, .done tn cn]).saves =
      s0.saves ++ [(some (chars "abc"),
        s0.persistedTurns ++ [⟨p, (t1 ++ t2) ++ chars "\n\n"⟩])] := by
  simp [applyEvents, applyEvent, runChat, handleText, handleToolUse,
    handleToolResult, handleSystemInit, handleDone, cardsSet, cardsGet,
    cardsDelete, hne, hsuf]

/-- C2 witness: the scenario at concrete inputs. -/
theorem chat_run_scenario_witness :
    (applyEvents (runChat initModal (chars "hi"))
        [.sysInit (chars "abc") [], .text (chars "Hello "), .text (chars "world"),
         .toolUse (chars "t1") (chars "Read"), .toolResult (chars "t1") (chars "ok"),
         .done ⟨1, 0⟩ ⟨1, -2⟩]).persistedTurns =
      initModal.persistedTurns ++
        [⟨chars "hi", (chars "Hello " ++ chars "world") ++ chars "\n\n"⟩]
    ∧ (applyEvents (runChat initModal (chars "hi"))
        [.sysInit (chars "abc") [], .text (chars "Hello "), .text (chars "world"),
         .toolUse (chars "t1") (chars "Read"), .toolResult (chars "t1") (chars "ok"),
         .done ⟨1, 0⟩ ⟨1, -2⟩]).sessionId = some (chars "abc")
    ∧ (applyEvents (runChat initModal (chars "hi"))
        [.sysInit (chars "abc") [], .text (chars "Hello "), .text (chars "world"),
         .toolUse (chars "t1") (chars "Read"), .toolResult (chars "t1") (chars "ok"),
         .done ⟨1, 0⟩ ⟨1, -2⟩]).toolCards = []
    ∧ (applyEvents (runChat initModal (chars "hi"))
        [.sysInit (chars "abc") [], .text (chars "Hello "), .text (chars "world"),
         .toolUse (chars "t1") (chars "Read"), .toolResult (chars "t1") (chars "ok"),
         .done ⟨1, 0⟩ ⟨1, -2⟩]).saves =
      initModal.saves ++ [(some (chars "abc"), initModal.persistedTurns ++
        [⟨chars "hi", (chars "Hello " ++ chars "world") ++ chars "\n\n"⟩])] := by
  exact chat_run_scenario initModal (chars "hi") (chars "Hello ") (chars "world")
    (chars "t1") (chars "Read") (chars "ok") ⟨1, 0⟩ ⟨1, -2⟩ (by decide) (by decide)

/-- `frame` on a cons cell whose head is not a newline. -/
theorem frame_cons_ne (c : Char) (hc : ¬ c = '\n') (zs : Str) :
    frame (c :: zs) =
      (match frame zs with
       | ([], r) => ([], c :: r)
       | (l :: ls, r) => ((c :: l) :: ls, r)) := by
  simp [frame, hc]

/-- A newline-free text frames to no record and itself as remainder. -/
theorem frame_of_no_newline (xs : Str) (h : '\n' ∉ xs) : frame xs = ([], xs) := by
  induction xs with
  | nil => rfl
  | cons c cs ih =>
    simp only [List.mem_cons, not_or] at h
    have hns : ¬ c = '\n' := fun hc => h.1 hc.symm
    simp only [frame, if_neg hns, ih h.2]

/-- The framing remainder never contains a newline. -/
theorem frame_rem_no_newline (xs : Str) : '\n' ∉ (frame xs).2 := by
  induction xs with
  | nil => simp [frame]
  | cons c cs ih =>
    by_cases hc : c = '\n'
    · simpa [frame, hc] using ih
    · cases h1 : frame cs with
      | mk ls r =>
        cases ls with
        | nil =>
          rw [h1] at ih
          simp only [frame, if_neg hc, h1]
          simp only [List.mem_cons, not_or]
          exact ⟨fun h => hc h.symm, ih⟩
        | cons l ls2 =>
          rw [h1] at ih
          simp only [frame, if_neg hc, h1]
          exact ih

/-- Framing splits over concatenation: the records of `xs ++ ys` are the
records of `xs` followed by the records obtained by re-framing `xs`'s
remainder glued to `ys`. -/
theorem frame_append (xs ys : Str) :
    frame (xs ++ ys) =
      ((frame xs).1 ++ (frame ((frame xs).2 ++ ys)).1,
        (frame ((frame xs).2 ++ ys)).2) := by
  induction xs with
  | nil => simp [frame]
  | cons c cs ih =>
    by_cases hc : c = '\n'
    · subst hc
      have l1 : frame ('\n' :: (cs ++ ys)) =
          ([] :: (frame (cs ++ ys)).1, (frame (cs ++ ys)).2) := by simp [frame]
      have l2 : frame ('\n' :: cs) =
          ([] :: (frame cs).1, (frame cs).2) := by simp [frame]
      rw [List.cons_append, l1, l2, ih]
      simp
    · rw [List.cons_append, frame_cons_ne c hc, frame_cons_ne c hc, ih]
      cases h1 : frame cs with
      | mk ls r =>
        cases ls with
        | nil =>
          simp only [List.nil_append]
          rw [List.cons_append, frame_cons_ne c hc]
        | cons l ls2 =>
          cases h2 : frame (r ++ ys) with
          | mk ls2 r2 => simp

/-- Re-glue framed records with newlines (inverse of framing). -/
def glue : List Str → Str
  | [] => []
  | [l] => l
  | l :: ls => l ++ '\n' :: glue ls

/-- Unfolding `glue` on a cons cell with a nonempty tail. -/
theorem glue_cons (a : Str) (ls : List Str) (h : ls ≠ []) :
    glue (a :: ls) = a ++ '\n' :: glue ls := by
  cases ls with
  | nil => exact absurd rfl h
  | cons b ls2 => rfl

/-- No byte is lost or duplicated: gluing the framed records and the remainder
back together with newlines restores the input exactly. -/
theorem frame_glue (s : Str) : glue ((frame s).1 ++ [(frame s).2]) = s := by
  induction s with
  | nil => rfl
  | cons c cs ih =>
    by_cases hc : c = '\n'
    · subst hc
      have l1 : frame ('\n' :: cs) =
          ([] :: (frame cs).1, (frame cs).2) := by simp [frame]
      rw [l1]
      rw [show (([] :: (frame cs).1, (frame cs).2).1 ++
          [([] :: (frame cs).1, (frame cs).2).2]) =
          [] :: ((frame cs).1 ++ [(frame cs).2]) from rfl]
      rw [glue_cons [] _ (by simp)]
      rw [ih]
      rfl
    · rw [frame_cons_ne c hc]
      cases h1 : frame cs with
      | mk ls r =>
        rw [h1] at ih
        cases ls with
        | nil =>
          have hr : r = cs := by simpa [glue] using ih
          simp [glue, hr]
        | cons l ls2 =>
          have step : glue ((c :: l) :: (ls2 ++ [r])) =
              (c :: l) ++ '\n' :: glue (ls2 ++ [r]) :=
            glue_cons (c :: l) (ls2 ++ [r]) (by simp)
          have step2 : glue (l :: (ls2 ++ [r])) = l ++ '\n' :: glue (ls2 ++ [r]) :=
            glue_cons l (ls2 ++ [r]) (by simp)
          simp only [List.cons_append] at ih
          rw [step2] at ih
          simp only [List.cons_append, step, List.cons_append, ih]

/-- No record is ever split across two yields: a framed record never contains
a newline. -/
theorem frame_lines_no_newline (s : Str) :
    ∀ l ∈ (frame s).1, '\n' ∉ l := by
  induction s with
  | nil => simp [frame]
  | cons c cs ih =>
    by_cases hc : c = '\n'
    · subst hc
      have l1 : frame ('\n' :: cs) =
          ([] :: (frame cs).1, (frame cs).2) := by simp [frame]
      rw [l1]
      intro l hl
      rcases List.mem_cons.mp hl with h | h
      · subst h; simp
      · exact ih l h
    · rw [frame_cons_ne c hc]
      cases h1 : frame cs with
      | mk ls r =>
        rw [h1] at ih
        cases ls with
        | nil => simp
        | cons l0 ls2 =>
          intro l hl
          rcases List.mem_cons.mp hl with h | h
          · subst h
            have h0 : '\n' ∉ l0 := ih l0 (by simp)
            simp only [List.mem_cons, not_or]
            exact ⟨fun hq => hc hq.symm, h0⟩
          · exact ih l (by simp [h])

/-- Feeding chunks one at a time from a newline-free buffer frames exactly the
concatenated text. -/
theorem feedAll_frame (chunks : List Str) : ∀ buffer : Str, '\n' ∉ buffer →
    feedAll buffer chunks = frame (buffer ++ chunks.flatten) := by
  induction chunks with
  | nil =>
    intro buffer h
    simp [feedAll, List.append_nil, frame_of_no_newline buffer h]
  | cons c cs ih =>
    intro buffer h
    have hrem := frame_rem_no_newline (buffer ++ c)
    have hstep := ih (frame (buffer ++ c)).2 hrem
    simp only [feedAll, feedChunk, hstep]
    rw [show buffer ++ (c :: cs).flatten = (buffer ++ c) ++ cs.flatten by simp]
    rw [frame_append (buffer ++ c) cs.flatten]

/-- A content block whose `text` subfield is absent, `null` or a string — the
shapes the claim's "content blocks" describe (any other shape would be joined
through JavaScript's number/array coercions instead). -/
def textFieldOk (c : JValue) : Bool :=
  match propD c (chars "text") with
  | .undefined => true
  | .js .null => true
  | .js (.str _) => true
  | _ => false

/-- The block's `text` subfield, the empty string when missing. -/
def textFieldStr (c : JValue) : Str :=
  match propD c (chars "text") with
  | .js (.str s) => s
  | _ => []

/-- Over well-shaped content blocks, the `map`/`join` pipeline succeeds and
produces exactly the blocks' `text` subfields. -/
theorem mapTexts_ok (cs : List JValue)
    (h : ∀ c ∈ cs, c ≠ .null ∧ textFieldOk c = true) :
    ∃ xs, mapTexts cs = .ok xs ∧ xs.map joinStrOf = cs.map textFieldStr := by
  induction cs with
  | nil => exact ⟨[], rfl, rfl⟩
  | cons c rest ih =>
    obtain ⟨hc, hok⟩ := h c (List.mem_cons_self c rest)
    obtain ⟨xs, hxs, hmap⟩ := ih (fun x hx => h x (List.mem_cons_of_mem c hx))
    have helem : ∃ y, textJoinElem c = .ok y ∧ joinStrOf y = textFieldStr c := by
      cases c with
      | null => exact absurd rfl hc
      | bool b =>
        refine ⟨.js (.str []), ?_, ?_⟩ <;>
          simp [textJoinElem, propD, nullish, joinStrOf, jsString, textFieldStr]
      | num q =>
        refine ⟨.js (.str []), ?_, ?_⟩ <;>
          simp [textJoinElem, propD, nullish, joinStrOf, jsString, textFieldStr]
      | str s =>
        refine ⟨.js (.str []), ?_, ?_⟩ <;>
          simp [textJoinElem, propD, nullish, joinStrOf, jsString, textFieldStr]
      | arr xs2 =>
        refine ⟨.js (.str []), ?_, ?_⟩ <;>
          simp [textJoinElem, propD, nullish, joinStrOf, jsString, textFieldStr]
      | obj fs =>
        cases hl : lookupF fs (chars "text") with
        | none =>
          refine ⟨.js (.str []), ?_, ?_⟩ <;>
            simp [textJoinElem, propD, hl, nullish, joinStrOf, jsString, textFieldStr]
        | some t =>
          cases t with
          | null =>
            refine ⟨.js (.str []), ?_, ?_⟩ <;>
              simp [textJoinElem, propD, hl, nullish, joinStrOf, jsString, textFieldStr]
          | str s =>
            refine ⟨.js (.str s), ?_, ?_⟩ <;>
              simp [textJoinElem, propD, hl, nullish, joinStrOf, jsString, textFieldStr]
          | bool b => simp [textFieldOk, propD, hl] at hok
          | num q => simp [textFieldOk, propD, hl] at hok
          | arr a => simp [textFieldOk, propD, hl] at hok
          | obj o => simp [textFieldOk, propD, hl] at hok
    obtain ⟨y, hy, hjoin⟩ := helem
    refine ⟨y :: xs, ?_, ?_⟩
    · simp only [mapTexts, hy, hxs]
      rfl
    · simp [hjoin, hmap]

/-- C7: for every `user` record whose message content is a `tool_result`
block, the block's `content` field is normalized by cases: a string is used
verbatim; an ordered sequence of content blocks joins their `text` subfields
(missing = empty) with newline separators; any other value is serialized with
`JSON.stringify`. -/
theorem tool_result_content_normalization
    (fs ms bs : List (Str × JValue)) (raw : JValue)
    (htype : lookupF fs (chars "type") = some (.str (chars "user")))
    (hmsg : lookupF fs (chars "message") = some (.obj ms))
    (hcontent : lookupF ms (chars "content") = some (.arr [.obj bs]))
    (hbt : lookupF bs (chars "type") = some (.str (chars "tool_result")))
    (hraw : lookupF bs (chars "content") = some raw) :
    (∀ sv, raw = .str sv →
      parseAndDispatchJ (.obj fs) =
        ([.toolResult (propD (.obj bs) (chars "tool_use_id")) (.js (.str sv))], none))
    ∧ (∀ cs, raw = .arr cs →
        (∀ c ∈ cs, c ≠ .null ∧ textFieldOk c = true) →
        parseAndDispatchJ (.obj fs) =
          ([.toolResult (propD (.obj bs) (chars "tool_use_id"))
            (.js (.str (List.intercalate (chars "\n") (cs.map textFieldStr))))], none))
    ∧ ((∀ sv, raw ≠ .str sv) → (∀ cs2, raw ≠ .arr cs2) →
        parseAndDispatchJ (.obj fs) =
          ([.toolResult (propD (.obj bs) (chars "tool_use_id"))
            (.js (.str (stringifyJson raw)))], none)) := by
  have h1 : propD (.obj bs) (chars "type") = .js (.str (chars "tool_result")) := by
    simp [propD, hbt]
  have h2 : propD (.obj bs) (chars "content") = .js raw := by
    simp [propD, hraw]
  have hmain : parseAndDispatchJ (.obj fs) = dispatchBlocks dispatchBlockU [.obj bs] := by
    have hc2 : contentOf (.obj fs) = .js (.arr [.obj bs]) := by
      simp [contentOf, propD, hmsg, hcontent]
    simp +decide [parseAndDispatchJ, propD, htype, dispatchMsg, hc2, truthy]
  refine ⟨?_, ?_, ?_⟩
  · intro sv hsv
    subst hsv
    rw [hmain]
    simp [dispatchBlocks, dispatchBlockU, h1, h2, normalizeToolContent]
    rfl
  · intro cs hcs hall
    subst hcs
    obtain ⟨xs, hxs, hmap⟩ := mapTexts_ok cs hall
    have hn : normalizeToolContent (.js (.arr cs)) =
        .ok (.js (.str (List.intercalate (chars "\n") (cs.map textFieldStr)))) := by
      simp only [normalizeToolContent, hxs]
      rw [show (do
          let xs2 ← (Except.ok xs : Except JsError (List JsVal))
          Except.ok (JsVal.js (.str (List.intercalate (chars "\n") (xs2.map joinStrOf))))) =
          Except.ok (JsVal.js (.str (List.intercalate (chars "\n") (xs.map joinStrOf)))) from rfl]
      rw [hmap]
    rw [hmain]
    simp [dispatchBlocks, dispatchBlockU, h1, h2, hn]
    rfl
  · intro hns hna
    have hn : normalizeToolContent (.js raw) = .ok (.js (.str (stringifyJson raw))) := by
      cases raw with
      | str s => exact absurd rfl (hns s)
      | arr a => exact absurd rfl (hna a)
      | null => rfl
      | bool b => rfl
      | num q => rfl
      | obj o => rfl
    rw [hmain]
    simp [dispatchBlocks, dispatchBlockU, h1, h2, hn]
    rfl

/-- The `tool_result` block of the string-content witness record. -/
def bsStrW : List (Str × JValue) :=
  [(chars "type", .str (chars "tool_result")),
   (chars "tool_use_id", .str (chars "t1")),
   (chars "content", .str (chars "hello"))]

/-- The `tool_result` block of the array-content witness record. -/
def bsArrW : List (Str × JValue) :=
  [(chars "type", .str (chars "tool_result")),
   (chars "tool_use_id", .str (chars "t2")),
   (chars "content", .arr [.obj [(chars "text", .str (chars "a"))], .obj []])]

/-- The `tool_result` block of the fallback-content witness record. -/
def bsOtherW : List (Str × JValue) :=
  [(chars "type", .str (chars "tool_result")),
   (chars "tool_use_id", .str (chars "t3")),
   (chars "content", .bool true)]

/-- Wrap a `tool_result` block into a full `user` record. -/
def userRecordW (bs : List (Str × JValue)) : List (Str × JValue) :=
  [(chars "type", .str (chars "user")),
   (chars "message", .obj [(chars "content", .arr [.obj bs])])]

/-- C7 witness: the three normalization cases at concrete records. -/
theorem tool_result_content_normalization_witness :
    parseAndDispatchJ (.obj (userRecordW bsStrW)) =
      ([.toolResult (.js (.str (chars "t1"))) (.js (.str (chars "hello")))], none)
    ∧ parseAndDispatchJ (.obj (userRecordW bsArrW)) =
      ([.toolResult (.js (.str (chars "t2"))) (.js (.str (chars "a\n")))], none)
    ∧ parseAndDispatchJ (.obj (userRecordW bsOtherW)) =
      ([.toolResult (.js (.str (chars "t3"))) (.js (.str (chars "true")))], none) := by
  refine ⟨?_, ?_, ?_⟩
  · exact (tool_result_content_normalization (userRecordW bsStrW)
      [(chars "content", .arr [.obj bsStrW])] bsStrW (.str (chars "hello"))
      rfl rfl rfl rfl rfl).1 (chars "hello") rfl
  · exact (tool_result_content_normalization (userRecordW bsArrW)
      [(chars "content", .arr [.obj bsArrW])] bsArrW
      (.arr [.obj [(chars "text", .str (chars "a"))], .obj []])
      rfl rfl rfl rfl rfl).2.1
      [.obj [(chars "text", .str (chars "a"))], .obj []] rfl (by decide)
  · exact (tool_result_content_normalization (userRecordW bsOtherW)
      [(chars "content", .arr [.obj bsOtherW])] bsOtherW (.bool true)
      rfl rfl rfl rfl rfl).2.2
      (fun sv h => nomatch h) (fun cs2 h => nomatch h)

/-! ### The byte level of the stdout stream
The `data` handler receives raw byte chunks and decodes each one in isolation
(`chunk.toString("utf8")`, `src/src/claude-runner.ts`, line 241). Node's
decoder follows the WHATWG UTF-8 decode-with-replacement algorithm: an
incomplete or invalid byte sequence becomes U+FFFD replacement characters, so
a multibyte character split across two chunks is corrupted. -/

/-- The Unicode replacement character U+FFFD. -/
def replChar : Char := Char.ofNat 0xFFFD

/-- The WHATWG UTF-8 decoder state: the partially accumulated code point, how
many continuation bytes have been seen and are needed, and the admissible
range of the next continuation byte. -/
structure Utf8State where
  codePoint : Nat
  bytesSeen : Nat
  bytesNeeded : Nat
  lower : Nat
  upper : Nat
deriving DecidableEq, Repr

/-- The decoder's initial state. -/
def utf8Init : Utf8State := ⟨0, 0, 0, 0x80, 0xBF⟩

/-- Handling of one byte in the initial state: ASCII and lead bytes per the
WHATWG table (with the `E0`/`ED`/`F0`/`F4` continuation boundaries), anything
else one replacement character. -/
def utf8StartState (b : Nat) : Str × Utf8State :=
  if b ≤ 0x7F then ([Char.ofNat b], utf8Init)
  else if 0xC2 ≤ b ∧ b ≤ 0xDF then ([], ⟨b % 32, 0, 1, 0x80, 0xBF⟩)
  else if 0xE0 ≤ b ∧ b ≤ 0xEF then
    ([], ⟨b % 16, 0, 2, if b = 0xE0 then 0xA0 else 0x80,
      if b = 0xED then 0x9F else 0xBF⟩)
  else if 0xF0 ≤ b ∧ b ≤ 0xF4 then
    ([], ⟨b % 8, 0, 3, if b = 0xF0 then 0x90 else 0x80,
      if b = 0xF4 then 0x8F else 0xBF⟩)
  else ([replChar], utf8Init)

/-- The WHATWG UTF-8 decoder with replacement: a byte outside the expected
continuation range emits U+FFFD and is reprocessed as a fresh byte; an
incomplete sequence at the end of the chunk emits one U+FFFD. -/
def utf8Run : Utf8State → List Nat → Str
  | st, [] => if st.bytesNeeded = 0 then [] else [replChar]
  | st, b :: bs =>
    if st.bytesNeeded = 0 then
      (utf8StartState b).1 ++ utf8Run (utf8StartState b).2 bs
    else if st.lower ≤ b ∧ b ≤ st.upper then
      let cp := st.codePoint * 64 + b % 64
      if st.bytesSeen + 1 = st.bytesNeeded then Char.ofNat cp :: utf8Run utf8Init bs
      else utf8Run ⟨cp, st.bytesSeen + 1, st.bytesNeeded, 0x80, 0xBF⟩ bs
    else replChar :: ((utf8StartState b).1 ++ utf8Run (utf8StartState b).2 bs)

/-- `Buffer.toString("utf8")` on one chunk. -/
def utf8Decode (bytes : List Nat) : Str := utf8Run utf8Init bytes

/-- The UTF-8 encoding of one character. -/
def utf8EncodeChar (c : Char) : List Nat :=
  let n := c.toNat
  if n ≤ 0x7F then [n]
  else if n ≤ 0x7FF then [0xC0 + n / 64, 0x80 + n % 64]
  else if n ≤ 0xFFFF then [0xE0 + n / 4096, 0x80 + n / 64 % 64, 0x80 + n % 64]
  else [0xF0 + n / 262144, 0x80 + n / 4096 % 64, 0x80 + n / 64 % 64, 0x80 + n % 64]

/-- The UTF-8 encoding of a text: the byte stream the child process emits for
it. -/
def utf8Encode (s : Str) : List Nat := (s.map utf8EncodeChar).flatten


/-- Decoding consumes one whole encoded character at a time. -/
theorem utf8Run_encodeChar (c : Char) (bs : List Nat) :
    utf8Run utf8Init (utf8EncodeChar c ++ bs) = c :: utf8Run utf8Init bs := by
  have hv : c.toNat < 0xD800 ∨ (0xDFFF < c.toNat ∧ c.toNat < 0x110000) := c.valid
  set n := c.toNat with hn
  by_cases h1 : n ≤ 0x7F
  · have he : utf8EncodeChar c = [n] := by simp [utf8EncodeChar, hn, h1]
    rw [he, List.cons_append, List.nil_append]
    rw [show utf8Run utf8Init (n :: bs) =
      (utf8StartState n).1 ++ utf8Run (utf8StartState n).2 bs from by
        simp [utf8Run, utf8Init]]
    rw [show utf8StartState n = ([Char.ofNat n], utf8Init) from by
      simp [utf8StartState, h1]]
    simp [hn, Char.ofNat_toNat]
  · by_cases h2 : n ≤ 0x7FF
    · have h0 : 0x80 ≤ n := by omega
      have he : utf8EncodeChar c = [0xC0 + n / 64, 0x80 + n % 64] := by
        simp [utf8EncodeChar, hn, h1, h2]
      rw [he]
      rw [show ([0xC0 + n / 64, 0x80 + n % 64] ++ bs) =
        (0xC0 + n / 64) :: (0x80 + n % 64) :: bs from rfl]
      rw [show utf8Run utf8Init ((0xC0 + n / 64) :: (0x80 + n % 64) :: bs) =
        (utf8StartState (0xC0 + n / 64)).1 ++
          utf8Run (utf8StartState (0xC0 + n / 64)).2 ((0x80 + n % 64) :: bs) from by
        simp [utf8Run, utf8Init]]
      rw [show utf8StartState (0xC0 + n / 64) =
          ([], ⟨(0xC0 + n / 64) % 32, 0, 1, 0x80, 0xBF⟩) from by
        rw [utf8StartState, if_neg (by omega), if_pos (by omega)]]
      rw [show ((0xC0 + n / 64) % 32) = n / 64 from by omega]
      have hb1 : (0x80 : Nat) ≤ 0x80 + n % 64 := by omega
      have hb2 : 0x80 + n % 64 ≤ (0xBF : Nat) := by omega
      rw [show utf8Run ⟨n / 64, 0, 1, 0x80, 0xBF⟩ ((0x80 + n % 64) :: bs) =
          Char.ofNat (n / 64 * 64 + (0x80 + n % 64) % 64) :: utf8Run utf8Init bs from by
        simp [utf8Run, hb1, hb2]]
      rw [show (n / 64 * 64 + (0x80 + n % 64) % 64) = n from by omega]
      simp [hn, Char.ofNat_toNat]
    · by_cases h3 : n ≤ 0xFFFF
      · have h0 : 0x800 ≤ n := by omega
        have hns : ¬ (0xD800 ≤ n ∧ n ≤ 0xDFFF) := by
          rcases hv with hv | hv <;> omega
        have he : utf8EncodeChar c =
            [0xE0 + n / 4096, 0x80 + n / 64 % 64, 0x80 + n % 64] := by
          simp [utf8EncodeChar, hn, h1, h2, h3]
        rw [he]
        rw [show ([0xE0 + n / 4096, 0x80 + n / 64 % 64, 0x80 + n % 64] ++ bs) =
          (0xE0 + n / 4096) :: (0x80 + n / 64 % 64) :: (0x80 + n % 64) :: bs from rfl]
        rw [show utf8Run utf8Init
            ((0xE0 + n / 4096) :: (0x80 + n / 64 % 64) :: (0x80 + n % 64) :: bs) =
          (utf8StartState (0xE0 + n / 4096)).1 ++
            utf8Run (utf8StartState (0xE0 + n / 4096)).2
              ((0x80 + n / 64 % 64) :: (0x80 + n % 64) :: bs) from by
          simp [utf8Run, utf8Init]]
        rw [show utf8StartState (0xE0 + n / 4096) =
            ([], ⟨(0xE0 + n / 4096) % 16, 0, 2,
              if 0xE0 + n / 4096 = 0xE0 then 0xA0 else 0x80,
              if 0xE0 + n / 4096 = 0xED then 0x9F else 0xBF⟩) from by
          rw [utf8StartState, if_neg (by omega), if_neg (by omega), if_pos (by omega)]]
        rw [show ((0xE0 + n / 4096) % 16) = n / 4096 from by omega]
        have hbl : (if 0xE0 + n / 4096 = 0xE0 then (0xA0 : Nat) else 0x80) ≤
            0x80 + n / 64 % 64 := by
          by_cases hE0 : 0xE0 + n / 4096 = 0xE0
          · rw [if_pos hE0]; omega
          · rw [if_neg hE0]; omega
        have hbl2 : (if n / 4096 = 0 then (0xA0 : Nat) else 0x80) ≤
            0x80 + n / 64 % 64 := by
          by_cases hE0 : n / 4096 = 0
          · rw [if_pos hE0]; omega
          · rw [if_neg hE0]; omega
        have hbu : 0x80 + n / 64 % 64 ≤
            (if 0xE0 + n / 4096 = 0xED then (0x9F : Nat) else 0xBF) := by
          by_cases hED : 0xE0 + n / 4096 = 0xED
          · rw [if_pos hED]; omega
          · rw [if_neg hED]; omega
        have hbu2 : 0x80 + n / 64 % 64 ≤
            (if n / 4096 = 13 then (0x9F : Nat) else 0xBF) := by
          by_cases hED : n / 4096 = 13
          · rw [if_pos hED]; omega
          · rw [if_neg hED]; omega
        rw [show utf8Run ⟨n / 4096, 0, 2,
              if 0xE0 + n / 4096 = 0xE0 then 0xA0 else 0x80,
              if 0xE0 + n / 4096 = 0xED then 0x9F else 0xBF⟩
            ((0x80 + n / 64 % 64) :: (0x80 + n % 64) :: bs) =
          utf8Run ⟨n / 4096 * 64 + (0x80 + n / 64 % 64) % 64, 1, 2, 0x80, 0xBF⟩
            ((0x80 + n % 64) :: bs) from by
          simp [utf8Run, hbl, hbu, hbl2, hbu2]]
        have hb1 : (0x80 : Nat) ≤ 0x80 + n % 64 := by omega
        have hb2 : 0x80 + n % 64 ≤ (0xBF : Nat) := by omega
        rw [show utf8Run ⟨n / 4096 * 64 + (0x80 + n / 64 % 64) % 64, 1, 2, 0x80, 0xBF⟩
            ((0x80 + n % 64) :: bs) =
          Char.ofNat ((n / 4096 * 64 + (0x80 + n / 64 % 64) % 64) * 64 +
            (0x80 + n % 64) % 64) :: utf8Run utf8Init bs from by
          simp [utf8Run, hb1, hb2]]
        rw [show ((n / 4096 * 64 + (0x80 + n / 64 % 64) % 64) * 64 +
            (0x80 + n % 64) % 64) = n from by omega]
        simp [hn, Char.ofNat_toNat]
      · have h0 : 0x10000 ≤ n := by omega
        have hub : n ≤ 0x10FFFF := by
          rcases hv with hv | hv <;> omega
        have he : utf8EncodeChar c =
            [0xF0 + n / 262144, 0x80 + n / 4096 % 64, 0x80 + n / 64 % 64,
              0x80 + n % 64] := by
          simp [utf8EncodeChar, hn, h1, h2, h3]
        rw [he]
        rw [show ([0xF0 + n / 262144, 0x80 + n / 4096 % 64, 0x80 + n / 64 % 64,
            0x80 + n % 64] ++ bs) =
          (0xF0 + n / 262144) :: (0x80 + n / 4096 % 64) :: (0x80 + n / 64 % 64) ::
            (0x80 + n % 64) :: bs from rfl]
        rw [show utf8Run utf8Init ((0xF0 + n / 262144) :: (0x80 + n / 4096 % 64) ::
            (0x80 + n / 64 % 64) :: (0x80 + n % 64) :: bs) =
          (utf8StartState (0xF0 + n / 262144)).1 ++
            utf8Run (utf8StartState (0xF0 + n / 262144)).2
              ((0x80 + n / 4096 % 64) :: (0x80 + n / 64 % 64) ::
                (0x80 + n % 64) :: bs) from by
          simp [utf8Run, utf8Init]]
        rw [show utf8StartState (0xF0 + n / 262144) =
            ([], ⟨(0xF0 + n / 262144) % 8, 0, 3,
              if 0xF0 + n / 262144 = 0xF0 then 0x90 else 0x80,
              if 0xF0 + n / 262144 = 0xF4 then 0x8F else 0xBF⟩) from by
          rw [utf8StartState, if_neg (by omega), if_neg (by omega),
            if_neg (by omega), if_pos (by omega)]]
        rw [show ((0xF0 + n / 262144) % 8) = n / 262144 from by omega]
        have hbl : (if 0xF0 + n / 262144 = 0xF0 then (0x90 : Nat) else 0x80) ≤
            0x80 + n / 4096 % 64 := by
          by_cases hF0 : 0xF0 + n / 262144 = 0xF0
          · rw [if_pos hF0]; omega
          · rw [if_neg hF0]; omega
        have hbl2 : (if n / 262144 = 0 then (0x90 : Nat) else 0x80) ≤
            0x80 + n / 4096 % 64 := by
          by_cases hF0 : n / 262144 = 0
          · rw [if_pos hF0]; omega
          · rw [if_neg hF0]; omega
        have hbu : 0x80 + n / 4096 % 64 ≤
            (if 0xF0 + n / 262144 = 0xF4 then (0x8F : Nat) else 0xBF) := by
          by_cases hF4 : 0xF0 + n / 262144 = 0xF4
          · rw [if_pos hF4]; omega
          · rw [if_neg hF4]; omega
        have hbu2 : 0x80 + n / 4096 % 64 ≤
            (if n / 262144 = 4 then (0x8F : Nat) else 0xBF) := by
          by_cases hF4 : n / 262144 = 4
          · rw [if_pos hF4]; omega
          · rw [if_neg hF4]; omega
        rw [show utf8Run ⟨n / 262144, 0, 3,
              if 0xF0 + n / 262144 = 0xF0 then 0x90 else 0x80,
              if 0xF0 + n / 262144 = 0xF4 then 0x8F else 0xBF⟩
            ((0x80 + n / 4096 % 64) :: (0x80 + n / 64 % 64) ::
              (0x80 + n % 64) :: bs) =
          utf8Run ⟨n / 262144 * 64 + (0x80 + n / 4096 % 64) % 64, 1, 3, 0x80, 0xBF⟩
            ((0x80 + n / 64 % 64) :: (0x80 + n % 64) :: bs) from by
          simp [utf8Run, hbl, hbu, hbl2, hbu2]]
        have hc1 : (0x80 : Nat) ≤ 0x80 + n / 64 % 64 := by omega
        have hc2 : 0x80 + n / 64 % 64 ≤ (0xBF : Nat) := by omega
        rw [show utf8Run ⟨n / 262144 * 64 + (0x80 + n / 4096 % 64) % 64, 1, 3,
              0x80, 0xBF⟩ ((0x80 + n / 64 % 64) :: (0x80 + n % 64) :: bs) =
          utf8Run ⟨(n / 262144 * 64 + (0x80 + n / 4096 % 64) % 64) * 64 +
              (0x80 + n / 64 % 64) % 64, 2, 3, 0x80, 0xBF⟩
            ((0x80 + n % 64) :: bs) from by
          simp [utf8Run, hc1, hc2]]
        have hb1 : (0x80 : Nat) ≤ 0x80 + n % 64 := by omega
        have hb2 : 0x80 + n % 64 ≤ (0xBF : Nat) := by omega
        rw [show utf8Run ⟨(n / 262144 * 64 + (0x80 + n / 4096 % 64) % 64) * 64 +
              (0x80 + n / 64 % 64) % 64, 2, 3, 0x80, 0xBF⟩
            ((0x80 + n % 64) :: bs) =
          Char.ofNat (((n / 262144 * 64 + (0x80 + n / 4096 % 64) % 64) * 64 +
            (0x80 + n / 64 % 64) % 64) * 64 + (0x80 + n % 64) % 64) ::
            utf8Run utf8Init bs from by
          simp [utf8Run, hb1, hb2]]
        rw [show (((n / 262144 * 64 + (0x80 + n / 4096 % 64) % 64) * 64 +
            (0x80 + n / 64 % 64) % 64) * 64 + (0x80 + n % 64) % 64) = n from by
          omega]
        simp [hn, Char.ofNat_toNat]

/-- Decoding inverts encoding on whole texts (a chunk cut at character
boundaries decodes losslessly). -/
theorem utf8Decode_utf8Encode (s : Str) : utf8Decode (utf8Encode s) = s := by
  induction s with
  | nil => rfl
  | cons c cs ih =>
    rw [show utf8Encode (c :: cs) = utf8EncodeChar c ++ utf8Encode cs from by
      simp [utf8Encode]]
    rw [utf8Decode] at ih ⊢
    rw [utf8Run_encodeChar c (utf8Encode cs), ih]

/-- One `data` callback at the byte level: decode the chunk, append to the
buffer, split off the complete records (`src/src/claude-runner.ts`, lines
240–247). -/
def feedChunkBytes (buffer : Str) (chunk : List Nat) : List Str × Str :=
  frame (buffer ++ utf8Decode chunk)

/-- A whole sequence of byte-chunk `data` callbacks from the given buffer. -/
def feedAllBytes : Str → List (List Nat) → List Str × Str
  | buffer, [] => ([], buffer)
  | buffer, chunk :: rest =>
    let (recs, buffer1) := feedChunkBytes buffer chunk
    let (recs2, buffer2) := feedAllBytes buffer1 rest
    (recs ++ recs2, buffer2)

/-- Every record handed to `parseAndDispatch` over a run, at the byte level:
the records of every chunk, then the flushed remainder on close. -/
def runnerRecordsBytes (chunks : List (List Nat)) : List Str :=
  let (recs, buffer) := feedAllBytes [] chunks
  recs ++ (if jsTrim buffer = [] then [] else [buffer])

/-- Feeding byte chunks that are each the encoding of a text chunk is exactly
the text-level framing. -/
theorem feedAllBytes_encode (chunks : List Str) : ∀ buffer : Str,
    feedAllBytes buffer (chunks.map utf8Encode) = feedAll buffer chunks := by
  induction chunks with
  | nil => intro buffer; rfl
  | cons chunk rest ih =>
    intro buffer
    simp only [List.map_cons, feedAllBytes, feedAll, feedChunkBytes, feedChunk,
      utf8Decode_utf8Encode, ih]

/-- C4 counterexample: the byte stream for the line `xéy\n` cut inside the
two-byte character `é` (after byte `0xC3`) yields a different — corrupted —
record than the uncut stream: per-chunk decoding turns the split character
into two U+FFFD replacement characters, so bytes are lost at that cut and the
framer does not yield the same records for every cutting of the same byte
stream. -/
theorem line_framer_byte_cut_counterexample :
    ([[120, 195, 169, 121, 10]] : List (List Nat)).flatten =
      ([[120, 195], [169, 121, 10]] : List (List Nat)).flatten
    ∧ [[120, 195, 169, 121, 10]] = [utf8Encode (chars "xéy\n")]
    ∧ runnerRecordsBytes [[120, 195, 169, 121, 10]] = [chars "xéy"]
    ∧ runnerRecordsBytes [[120, 195], [169, 121, 10]] =
        [['x', replChar, replChar, 'y']]
    ∧ runnerRecordsBytes [[120, 195, 169, 121, 10]] ≠
        runnerRecordsBytes [[120, 195], [169, 121, 10]] := by
  refine ⟨by decide, by decide, by decide, by decide, by decide⟩

/-- C4 amended: for every byte stream and every way of cutting it into chunks
at character boundaries, the line framer yields exactly the records of the
concatenated stream (so any two such cuttings agree, and a record split across
two feeds reassembles into exactly one record, hence one parsed event); gluing
records and remainder restores the stream with nothing lost or duplicated; no
yielded record spans a newline; the trailing unterminated remainder is flushed
through the parser on close; and the spec's concrete split `{"type":"sy` /
`stem",...}\n` parses to exactly one system-init event. (A cut inside a
multibyte character is excluded: per-chunk decoding corrupts it, as the
counterexample shows.) -/
theorem line_framer_char_aligned_cut_invariant (chunks : List Str) :
    feedAllBytes [] (chunks.map utf8Encode) = frame chunks.flatten
    ∧ runnerRecordsBytes (chunks.map utf8Encode) = frameRecords chunks.flatten
    ∧ glue ((frame chunks.flatten).1 ++ [(frame chunks.flatten).2]) = chunks.flatten
    ∧ (∀ l ∈ (frame chunks.flatten).1, '\n' ∉ l)
    ∧ (runnerRecordsBytes [utf8Encode (chars "\x7b\"type\":\"sy"),
          utf8Encode (chars "stem\",\"subtype\":\"init\",\"session_id\":\"abc\"\x7d\n")]).map
        parseAndDispatch =
      [([Event.systemInit (.js (.str (chars "abc"))) []], none)] := by
  have hbase : feedAll [] chunks = frame chunks.flatten := by
    simpa using feedAll_frame chunks [] (by simp)
  refine ⟨?_, ?_, frame_glue chunks.flatten, frame_lines_no_newline chunks.flatten, ?_⟩
  · rw [feedAllBytes_encode chunks [], hbase]
  · simp only [runnerRecordsBytes, frameRecords, feedAllBytes_encode chunks [], hbase]
  · decide

/-- C4 witness: the invariants at a concrete chunk list, with the
no-newline-in-record conjunct discharged at a concrete record. -/
theorem line_framer_char_aligned_cut_invariant_witness :
    feedAllBytes [] ([chars "a\nb"].map utf8Encode) =
      frame ([chars "a\nb"] : List Str).flatten
    ∧ '\n' ∉ chars "a" := by
  refine ⟨(line_framer_char_aligned_cut_invariant [chars "a\nb"]).1, ?_⟩
  exact (line_framer_char_aligned_cut_invariant [chars "a\nb"]).2.2.2.1
    (chars "a") (by decide)
